import Mathlib

/-!
Verification of the batch startup scraper (src/scrape.py, src/startup_searcher.py).

The program manipulates Python dictionaries produced by `json.loads`, so the
embedding models JSON values explicitly.  Numbers are modelled as integers
(floating-point JSON numbers, `NaN`/`Infinity` constants and exotic `\u`
decoder quirks of the Python stdlib are out of scope of the model).
Python strings are modelled by Lean `String`; `str.lower()` is modelled by
ASCII lowercasing, which agrees with Python on every string compared here.
-/

/-- A JSON value, as produced by Python's `json.loads` (numbers restricted to
integers; see the module comment). -/
inductive Json where
  | null : Json
  | bool (b : Bool) : Json
  | num (n : Int) : Json
  | str (s : String) : Json
  | arr (xs : List Json) : Json
  | obj (kvs : List (String × Json)) : Json

mutual

/-- Boolean equality on JSON values. -/
def Json.beqv : Json → Json → Bool
  | Json.null, Json.null => true
  | Json.bool a, Json.bool b => a = b
  | Json.num a, Json.num b => a = b
  | Json.str a, Json.str b => a = b
  | Json.arr a, Json.arr b => Json.beqvList a b
  | Json.obj a, Json.obj b => Json.beqvPairs a b
  | _, _ => false

def Json.beqvList : List Json → List Json → Bool
  | [], [] => true
  | x :: xs, y :: ys => Json.beqv x y && Json.beqvList xs ys
  | _, _ => false

def Json.beqvPairs : List (String × Json) → List (String × Json) → Bool
  | [], [] => true
  | (k1, v1) :: xs, (k2, v2) :: ys =>
      (k1 = k2 : Bool) && Json.beqv v1 v2 && Json.beqvPairs xs ys
  | _, _ => false

end

mutual

theorem Json.beqv_iff : ∀ a b : Json, Json.beqv a b = true ↔ a = b
  | Json.null, b => by cases b <;> simp [Json.beqv]
  | Json.bool x, b => by cases b <;> simp [Json.beqv]
  | Json.num x, b => by cases b <;> simp [Json.beqv]
  | Json.str x, b => by cases b <;> simp [Json.beqv]
  | Json.arr xs, b => by
      cases b <;> simp [Json.beqv]
      exact Json.beqvList_iff xs _
  | Json.obj kvs, b => by
      cases b <;> simp [Json.beqv]
      exact Json.beqvPairs_iff kvs _

theorem Json.beqvList_iff : ∀ a b : List Json, Json.beqvList a b = true ↔ a = b
  | [], b => by cases b <;> simp [Json.beqvList]
  | x :: xs, b => by
      cases b with
      | nil => simp [Json.beqvList]
      | cons y ys =>
          simp only [Json.beqvList, Bool.and_eq_true, List.cons.injEq]
          exact and_congr (Json.beqv_iff x y) (Json.beqvList_iff xs ys)

theorem Json.beqvPairs_iff :
    ∀ a b : List (String × Json), Json.beqvPairs a b = true ↔ a = b
  | [], b => by cases b <;> simp [Json.beqvPairs]
  | (k1, v1) :: xs, b => by
      cases b with
      | nil => simp [Json.beqvPairs]
      | cons q ys =>
          obtain ⟨k2, v2⟩ := q
          simp only [Json.beqvPairs, Bool.and_eq_true, List.cons.injEq,
            Prod.mk.injEq, decide_eq_true_eq]
          rw [Json.beqv_iff v1 v2, Json.beqvPairs_iff xs ys, and_assoc]

end

instance : DecidableEq Json := fun a b =>
  decidable_of_iff (Json.beqv a b = true) (Json.beqv_iff a b)

/-- A Python dict with string keys, as used for every record in the program.
Keys are unique in every dict the program builds. -/
abbrev PyDict := List (String × Json)

/-- Python `k in d` on a dict: key membership. -/
def hasKeyB (d : PyDict) (k : String) : Bool :=
  d.any (fun q => q.1 = k)

/-- Python `d.get(k, dflt)` on a dict. -/
def dictGetD (d : PyDict) (k : String) (dflt : Json) : Json :=
  match d with
  | [] => dflt
  | (k2, v) :: r => if k2 = k then v else dictGetD r k dflt

/-- Python `d[k] = v`: overwrite in place if the key exists (keeping its
position), otherwise append.  This is how `json.loads` builds objects, so a
duplicated key in the text makes the later value win. -/
def pyInsert (d : PyDict) (k : String) (v : Json) : PyDict :=
  if hasKeyB d k then d.map (fun q => if q.1 = k then (k, v) else q)
  else d ++ [(k, v)]

/-- Python `text.find(c)`: index of the first occurrence, or -1. -/
def pyFind (cs : List Char) (c : Char) : Int :=
  match cs with
  | [] => -1
  | x :: r => if x = c then 0 else (if pyFind r c = -1 then -1 else pyFind r c + 1)

/-- Python `text.rfind(c)`: index of the last occurrence, or -1. -/
def pyRfind (cs : List Char) (c : Char) : Int :=
  match cs with
  | [] => -1
  | x :: r =>
      if pyRfind r c = -1 then (if x = c then 0 else -1) else pyRfind r c + 1

/-- Python `s.lower()` (ASCII case mapping; see the module comment). -/
def pyLower (s : String) : String :=
  String.mk (s.toList.map Char.toLower)

/-- Python's `type(v).__name__` for the JSON-representable values. -/
def pyTypeName : Json → String
  | Json.null => "NoneType"
  | Json.bool _ => "bool"
  | Json.num _ => "int"
  | Json.str _ => "str"
  | Json.arr _ => "list"
  | Json.obj _ => "dict"

theorem pyRfind_ge_neg_one (cs : List Char) (c : Char) :
    -1 ≤ pyRfind cs c := by
  induction cs with
  | nil => simp [pyRfind]
  | cons x r ih =>
      simp only [pyRfind]
      by_cases hr : pyRfind r c = -1
      · by_cases hx : x = c <;> simp [hr, hx]
      · simp only [if_neg hr]; omega

theorem pyFind_ge_neg_one (cs : List Char) (c : Char) :
    -1 ≤ pyFind cs c := by
  induction cs with
  | nil => simp [pyFind]
  | cons x r ih =>
      simp only [pyFind]
      by_cases hx : x = c
      · simp [hx]
      · by_cases hr : pyFind r c = -1
        · simp [hx, hr]
        · simp only [if_neg hx, if_neg hr]; omega

theorem pyFind_eq_neg_one_iff (cs : List Char) (c : Char) :
    pyFind cs c = -1 ↔ c ∉ cs := by
  induction cs with
  | nil => simp [pyFind]
  | cons x r ih =>
      simp only [pyFind]
      by_cases hx : x = c
      · simp [hx]
      · by_cases hr : pyFind r c = -1
        · simp [hx, hr, ih.mp hr, Ne.symm hx]
        · simp only [if_neg hx, if_neg hr]
          constructor
          · intro h
            exact absurd h (by have := pyFind_ge_neg_one r c; omega)
          · intro h
            simp only [List.mem_cons, not_or] at h
            exact absurd (ih.mpr h.2) hr

theorem pyRfind_eq_neg_one_iff (cs : List Char) (c : Char) :
    pyRfind cs c = -1 ↔ c ∉ cs := by
  induction cs with
  | nil => simp [pyRfind]
  | cons x r ih =>
      simp only [pyRfind]
      by_cases hr : pyRfind r c = -1
      · by_cases hx : x = c
        · simp [hr, hx]
        · simp [hr, hx, ih.mp hr, Ne.symm hx]
      · simp only [if_neg hr]
        constructor
        · intro h
          exact absurd h (by have := pyRfind_ge_neg_one r c; omega)
        · intro h
          simp only [List.mem_cons, not_or] at h
          exact absurd (ih.mpr h.2) hr

/-- Decimal digits, fuelled so that the definition evaluates by reduction;
`n + 1` units of fuel always suffice. -/
def natCharsAux : Nat → Nat → List Char
  | 0, _ => []
  | fuel + 1, n =>
      if n < 10 then [Char.ofNat (48 + n)]
      else natCharsAux fuel (n / 10) ++ [Char.ofNat (48 + n % 10)]

/-- Decimal digit characters of a natural number (most significant first),
as Python prints integers. -/
def natChars (n : Nat) : List Char := natCharsAux (n + 1) n

/-- Python's decimal rendering of an integer. -/
def intChars (n : Int) : List Char :=
  if n < 0 then '-' :: natChars n.natAbs else natChars n.toNat

/-- Lowercase hexadecimal digit, as used by Python's `\uXXXX` escapes. -/
def hexDig (n : Nat) : Char :=
  if n < 10 then Char.ofNat (48 + n) else Char.ofNat (87 + n)

/-- How `json.dumps` with `ensure_ascii=False` renders one character inside a
string literal: it escapes the quote, the backslash and control characters
below 0x20 (five of them by short escapes, the rest as `\u00xx`), and leaves
every other character alone. -/
def escChar (c : Char) : List Char :=
  if c = '\"' then ['\\', '\"']
  else if c = '\\' then ['\\', '\\']
  else if c = '\n' then ['\\', 'n']
  else if c = '\r' then ['\\', 'r']
  else if c = '\t' then ['\\', 't']
  else if c = '\x08' then ['\\', 'b']
  else if c = '\x0c' then ['\\', 'f']
  else if c.toNat < 32 then
    ['\\', 'u', '0', '0', hexDig (c.toNat / 16), hexDig (c.toNat % 16)]
  else [c]

/-- A whole string body escaped as by `json.dumps` (quotes not included). -/
def escChars : List Char → List Char
  | [] => []
  | c :: r => escChar c ++ escChars r

mutual

/-- The exact text `json.dumps(v, indent=2, ensure_ascii=False)` produces for
a value printed at indentation level `ind` (`_save_progress` in src/scrape.py
serializes with these options). -/
def printVal (ind : Nat) : Json → List Char
  | Json.null => ['n', 'u', 'l', 'l']
  | Json.bool true => ['t', 'r', 'u', 'e']
  | Json.bool false => ['f', 'a', 'l', 's', 'e']
  | Json.num n => intChars n
  | Json.str s => '\"' :: (escChars s.toList ++ ['\"'])
  | Json.arr [] => ['[', ']']
  | Json.arr (x :: xs) =>
      '[' :: '\n' :: (List.replicate (ind + 2) ' ' ++ printVal (ind + 2) x ++
        printMoreA (ind + 2) xs ++ '\n' :: (List.replicate ind ' ' ++ [']']))
  | Json.obj [] => ['\x7b', '\x7d']
  | Json.obj (p :: ps) =>
      '\x7b' :: '\n' :: (List.replicate (ind + 2) ' ' ++ printPair (ind + 2) p ++
        printMoreO (ind + 2) ps ++ '\n' :: (List.replicate ind ' ' ++ ['\x7d']))

/-- One `"key": value` pair as printed by `json.dumps`. -/
def printPair (ind : Nat) : String × Json → List Char
  | (k, v) => '\"' :: (escChars k.toList ++ '\"' :: ':' :: ' ' :: printVal ind v)

/-- The remaining array items, each preceded by `,` + newline + indentation. -/
def printMoreA (ind : Nat) : List Json → List Char
  | [] => []
  | y :: ys =>
      ',' :: '\n' :: (List.replicate ind ' ' ++ printVal ind y ++ printMoreA ind ys)

/-- The remaining object pairs, each preceded by `,` + newline + indentation. -/
def printMoreO (ind : Nat) : List (String × Json) → List Char
  | [] => []
  | q :: qs =>
      ',' :: '\n' :: (List.replicate ind ' ' ++ printPair ind q ++ printMoreO ind qs)

end

/-- `json.dumps(v, indent=2, ensure_ascii=False)`. -/
def dumps (v : Json) : String :=
  String.mk (printVal 0 v)

/-- The whitespace characters Python's JSON parser skips. -/
def isWs (c : Char) : Bool :=
  c = ' ' || c = '\t' || c = '\n' || c = '\r'

/-- Drop leading JSON whitespace. -/
def skipWs : List Char → List Char
  | [] => []
  | c :: r => if isWs c then skipWs r else c :: r

/-- Value of one hexadecimal digit in a `\uXXXX` escape. -/
def hexVal (c : Char) : Option Nat :=
  if 48 ≤ c.toNat ∧ c.toNat ≤ 57 then some (c.toNat - 48)
  else if 97 ≤ c.toNat ∧ c.toNat ≤ 102 then some (c.toNat - 87)
  else if 65 ≤ c.toNat ∧ c.toNat ≤ 70 then some (c.toNat - 55)
  else none

/-- Value of a four-digit hexadecimal escape. -/
def hex4 (h1 h2 h3 h4 : Char) : Option Nat := do
  let a ← hexVal h1
  let b ← hexVal h2
  let c ← hexVal h3
  let d ← hexVal h4
  pure (((a * 16 + b) * 16 + c) * 16 + d)

/-- Decode one escape sequence after a backslash, as Python's strict-mode
`py_scanstring`: the named escapes or `\uXXXX` (combining surrogate pairs; a
lone surrogate is not representable as a Lean `Char` and is rejected by the
model).  Returns the decoded character and the remaining input. -/
def decodeEsc : List Char → Option (Char × List Char)
  | [] => none
  | e :: r =>
    if e = '\"' then some ('\"', r)
    else if e = '\\' then some ('\\', r)
    else if e = '/' then some ('/', r)
    else if e = 'b' then some ('\x08', r)
    else if e = 'f' then some ('\x0c', r)
    else if e = 'n' then some ('\n', r)
    else if e = 'r' then some ('\r', r)
    else if e = 't' then some ('\t', r)
    else if e = 'u' then
      match r with
      | h1 :: h2 :: h3 :: h4 :: r3 =>
        match hex4 h1 h2 h3 h4 with
        | none => none
        | some n =>
          if 0xD800 ≤ n ∧ n ≤ 0xDBFF then
            match r3 with
            | b1 :: b2 :: g1 :: g2 :: g3 :: g4 :: r4 =>
              if b1 = '\\' ∧ b2 = 'u' then
                match hex4 g1 g2 g3 g4 with
                | none => none
                | some m =>
                  if 0xDC00 ≤ m ∧ m ≤ 0xDFFF then
                    some (Char.ofNat
                      (0x10000 + (n - 0xD800) * 0x400 + (m - 0xDC00)), r4)
                  else none
              else none
            | _ => none
          else if 0xDC00 ≤ n ∧ n ≤ 0xDFFF then none
          else some (Char.ofNat n, r3)
      | _ => none
    else none

/-- The JSON string-body scanner (after the opening quote), fuelled so that
it evaluates by reduction: it ends at an unescaped quote, rejects raw control
characters, and decodes escapes via `decodeEsc`.  Every step consumes at
least one input character, so fuel equal to the input length suffices. -/
def parseStrCharsF : Nat → List Char → Option (List Char × List Char)
  | 0, _ => none
  | fuel + 1, cs =>
    match cs with
    | [] => none
    | c :: r =>
      if c = '\"' then some ([], r)
      else if c = '\\' then
        match decodeEsc r with
        | none => none
        | some (d, r2) => (parseStrCharsF fuel r2).map (fun p => (d :: p.1, p.2))
      else if c.toNat < 32 then none
      else (parseStrCharsF fuel r).map (fun p => (c :: p.1, p.2))

/-- The string-body scanner with its always-sufficient fuel. -/
def parseStrChars (cs : List Char) : Option (List Char × List Char) :=
  parseStrCharsF cs.length cs

/-- Decimal digit test. -/
def isDigitC (c : Char) : Bool := 48 ≤ c.toNat && c.toNat ≤ 57

/-- Consume a maximal run of decimal digits, accumulating their value. -/
def digitsLoop (acc : Nat) : List Char → Nat × List Char
  | [] => (acc, [])
  | c :: r =>
      if isDigitC c then digitsLoop (acc * 10 + (c.toNat - 48)) r else (acc, c :: r)

/-- The digits of a JSON number after the optional minus:
`0 | [1-9][0-9]*` (after a leading `0` no further digits are consumed).
A following `.`, `e` or `E` would start a float literal, which the model
rejects (numbers are modelled as integers; see the module comment). -/
def parseNumBody (neg : Bool) (cs : List Char) : Option (Json × List Char) :=
  match cs with
  | [] => none
  | c :: r =>
    if isDigitC c then
      let q : Nat × List Char :=
        if c = '0' then (0, r) else digitsLoop (c.toNat - 48) r
      let v : Json := Json.num (if neg then -(q.1 : Int) else (q.1 : Int))
      match q.2 with
      | [] => some (v, [])
      | d :: _ => if d = '.' || d = 'e' || d = 'E' then none else some (v, q.2)
    else none

/-- The integer production of Python's JSON number grammar: an optional
minus, then the digits. -/
def parseNum (cs : List Char) : Option (Json × List Char) :=
  match cs with
  | c :: r => if c = '-' then parseNumBody true r else parseNumBody false (c :: r)
  | [] => none

mutual

/-- One JSON value starting at the first non-whitespace character; mirrors
Python's `scan_once`, which dispatches on that character: a quote starts a
string, braces and brackets start containers, `t`/`f`/`n` must spell the
three keyword constants, and anything else is tried as a number. -/
def parseVal : Nat → List Char → Option (Json × List Char)
  | 0, _ => none
  | fuel + 1, cs =>
    match skipWs cs with
    | [] => none
    | c :: r =>
      if c = '\"' then
        (parseStrChars r).map (fun p => (Json.str (String.mk p.1), p.2))
      else if c = '\x7b' then
        match skipWs r with
        | [] => none
        | c2 :: r2 =>
            if c2 = '\x7d' then some (Json.obj [], r2)
            else (parseObjRest fuel r []).map (fun p => (Json.obj p.1, p.2))
      else if c = '[' then
        match skipWs r with
        | [] => none
        | c2 :: r2 =>
            if c2 = ']' then some (Json.arr [], r2)
            else (parseArrRest fuel r).map (fun p => (Json.arr p.1, p.2))
      else if c = 't' then
        match r with
        | 'r' :: 'u' :: 'e' :: r2 => some (Json.bool true, r2)
        | _ => none
      else if c = 'f' then
        match r with
        | 'a' :: 'l' :: 's' :: 'e' :: r2 => some (Json.bool false, r2)
        | _ => none
      else if c = 'n' then
        match r with
        | 'u' :: 'l' :: 'l' :: r2 => some (Json.null, r2)
        | _ => none
      else parseNum (c :: r)

/-- The items of a non-empty array (Python's `JSONArray` loop): a value, then
a comma or the closing bracket; a trailing comma is a syntax error. -/
def parseArrRest : Nat → List Char → Option (List Json × List Char)
  | 0, _ => none
  | fuel + 1, cs =>
    match parseVal fuel cs with
    | none => none
    | some (v, r1) =>
      match skipWs r1 with
      | [] => none
      | c :: r2 =>
          if c = ',' then (parseArrRest fuel r2).map (fun p => (v :: p.1, p.2))
          else if c = ']' then some ([v], r2)
          else none

/-- The pairs of a non-empty object (Python's `JSONObject` loop): a quoted
key, a colon, a value, then a comma or the closing brace; pairs accumulate by
dict assignment, so a repeated key keeps its first position with the last
value. -/
def parseObjRest : Nat → List Char → PyDict → Option (PyDict × List Char)
  | 0, _, _ => none
  | fuel + 1, cs, acc =>
    match skipWs cs with
    | [] => none
    | c :: r =>
      if c = '\"' then
        match parseStrChars r with
        | none => none
        | some (kcs, r1) =>
          match skipWs r1 with
          | [] => none
          | c2 :: r2 =>
            if c2 = ':' then
              match parseVal fuel r2 with
              | none => none
              | some (v, r3) =>
                let acc2 := pyInsert acc (String.mk kcs) v
                match skipWs r3 with
                | [] => none
                | c3 :: r4 =>
                    if c3 = ',' then parseObjRest fuel r4 acc2
                    else if c3 = '\x7d' then some (acc2, r4)
                    else none
            else none
      else none

end

/-- `json.loads` on a character list: one value surrounded only by
whitespace.  The fuel `2 * length + 2` exceeds what any parse can use, since
every unit of fuel spent on nesting or iteration consumes input. -/
def loadsChars (cs : List Char) : Option Json :=
  match parseVal (2 * cs.length + 2) cs with
  | some (v, rest) => if skipWs rest = [] then some v else none
  | none => none

/-- Python `json.loads`. -/
def loads (s : String) : Option Json := loadsChars s.toList

/-! ## The searcher (src/startup_searcher.py, `search_startup_info`) -/

/-- The all-"Not found" `contact_info` dict built by every fallback and error
branch of `search_startup_info`. -/
def contactNotFound : Json :=
  Json.obj [("website", Json.str "Not found"), ("email", Json.str "Not found"),
    ("linkedin", Json.str "Not found"), ("twitter", Json.str "Not found"),
    ("other", Json.str "Not found")]

/-- The fallback record built when no opening brace is found in the response
text (src/startup_searcher.py lines 82-94). -/
def fallbackNoJson (name text : String) : PyDict :=
  [("startup_name", Json.str name), ("description", Json.str text),
   ("hiring_status", Json.str "unknown"), ("contact_info", contactNotFound)]

/-- The fallback record built when braces were found but the extracted
substring failed to parse (lines 98-112): the same fields plus
`raw_response`. -/
def fallbackRaw (name text : String) : PyDict :=
  [("startup_name", Json.str name), ("description", Json.str text),
   ("hiring_status", Json.str "unknown"), ("contact_info", contactNotFound),
   ("raw_response", Json.str text)]

/-- The record built when the query invocation itself raises (lines 114-127). -/
def errorRecord (name msg : String) : PyDict :=
  [("startup_name", Json.str name),
   ("error", Json.str ("Failed to search for startup: " ++ msg)),
   ("description", Json.str "Error occurred during search"),
   ("hiring_status", Json.str "unknown"), ("contact_info", contactNotFound)]

/-- `start_idx = response_text.find("\x7b")`. -/
def jsonStart (cs : List Char) : Int := pyFind cs '\x7b'

/-- `end_idx = response_text.rfind("\x7d") + 1`. -/
def jsonEnd (cs : List Char) : Int := pyRfind cs '\x7d' + 1

/-- `json_str = response_text[start_idx:end_idx]` (both indices are
non-negative whenever this slice is taken). -/
def extractJsonStr (text : String) : String :=
  String.mk (((text.toList).take (jsonEnd text.toList).toNat).drop
    (jsonStart text.toList).toNat)

/-- The response-normalization part of `search_startup_info` (lines 73-112),
applied to the raw response text of a successful invocation.  The
`some non-object` case of the inner match is unreachable: the slice starts at
the first `\x7b` of the text, so a successful parse is always an object. -/
def searchRecordOfText (name text : String) : PyDict :=
  let cs := text.toList
  if jsonStart cs ≠ -1 ∧ jsonEnd cs ≠ -1 then
    match loads (extractJsonStr text) with
    | some (Json.obj kvs) => kvs
    | some _ => fallbackRaw name text
    | none => fallbackRaw name text
  else fallbackNoJson name text

/-- `search_startup_info` (lines 28-127).  The external query capability is
an oracle from the entity name to either the raw response text or the string
rendering of the raised fault; the prompt is a fixed template of the name, so
indexing the oracle by the name loses nothing. -/
def search_startup_info (invoke : String → Except String String)
    (name : String) : PyDict :=
  match invoke name with
  | Except.ok text => searchRecordOfText name text
  | Except.error e => errorRecord name e

/-! ## The batch runner (src/scrape.py, `scrape_startups` / `_save_progress`) -/

/-- `json.dump(results, f, indent=2, ensure_ascii=False)` as performed by
`_save_progress`: the full results list serialized as one JSON array. -/
def saveContent (results : List PyDict) : String :=
  dumps (Json.arr (results.map Json.obj))

/-- Does the brief-result display block (src/scrape.py lines 76-91) raise?
When the record has no "error" key, `status.lower()` raises unless
`hiring_status` (default "unknown") is a string, and
`.get("contact_info", \x7b\x7d).get("website", ...)` raises unless
`contact_info` (default empty dict) is a dict.  Both live inside the loop's
`try`, after the record was already appended. -/
def displayFault (r : PyDict) : Bool :=
  if hasKeyB r "error" then false
  else
    match dictGetD r "hiring_status" (Json.str "unknown"),
        dictGetD r "contact_info" (Json.obj []) with
    | Json.str _, Json.obj _ => false
    | _, _ => true

/-- The `str(e)` of the AttributeError the display block raises (the status
fault is hit first, as in the source's evaluation order). -/
def loopFaultMsg (r : PyDict) : String :=
  match dictGetD r "hiring_status" (Json.str "unknown") with
  | Json.str _ => pyTypeName (dictGetD r "contact_info" (Json.obj []))
      ++ " object has no attribute get"
  | v => pyTypeName v ++ " object has no attribute lower"

/-- The generic error record the outer fault boundary appends
(src/scrape.py lines 98-110). -/
def outerErrorRecord (name msg : String) : PyDict :=
  [("startup_name", Json.str name),
   ("error", Json.str ("Unexpected error: " ++ msg)),
   ("description", Json.str "Error occurred during search"),
   ("hiring_status", Json.str "unknown"), ("contact_info", contactNotFound)]

/-- The in-memory results plus the history of successful checkpoint writes
(the last element being the checkpoint file's current content). -/
structure RunState where
  results : List PyDict
  writes : List String
deriving DecidableEq

/-- One iteration of the `scrape_startups` loop for entity `name`:
call the searcher (total), append the record, run the display block; if the
display block faults, the outer `except` appends a generic error record and
the checkpoint write at the end of the `try` is skipped; otherwise
`_save_progress` runs when an output file is configured, and a write fault
(`saveOk = false`) is caught inside `_save_progress`, leaving both the file
and the run untouched. -/
def processOne (searchFn : String → PyDict) (useFile saveOk : Bool)
    (st : RunState) (name : String) : RunState :=
  let r := searchFn name
  let res1 := st.results ++ [r]
  if displayFault r then
    ⟨res1 ++ [outerErrorRecord name (loopFaultMsg r)], st.writes⟩
  else if useFile && saveOk then ⟨res1, st.writes ++ [saveContent res1]⟩
  else ⟨res1, st.writes⟩

/-- The loop of `scrape_startups`, threading the entity index so the
write-fault oracle can vary per iteration. -/
def scrapeLoop (searchFn : String → PyDict) (useFile : Bool)
    (saveOk : Nat → Bool) : List String → Nat → RunState → RunState
  | [], _, st => st
  | n :: ns, i, st =>
      scrapeLoop searchFn useFile saveOk ns (i + 1)
        (processOne searchFn useFile (saveOk i) st n)

/-- `scrape_startups` (src/scrape.py lines 46-121): empty input returns
immediately; otherwise the loop runs over every name.  The fixed
inter-request delay has no effect on the state and is not modelled. -/
def scrape_startups (searchFn : String → PyDict) (useFile : Bool)
    (saveOk : Nat → Bool) (names : List String) : RunState :=
  if names = [] then ⟨[], []⟩
  else scrapeLoop searchFn useFile saveOk names 0 ⟨[], []⟩

/-! ## The aggregator (src/scrape.py, `generate_summary_report`) -/

/-- The faults `generate_summary_report` can raise while computing:
an AttributeError from `.lower()` / `.get()` on a value of the wrong dynamic
type, or a ZeroDivisionError from a percentage. -/
inductive PyErr where
  | attrErr (msg : String) : PyErr
  | zeroDiv : PyErr
deriving DecidableEq

/-- Python `v.lower()`: defined for strings, an AttributeError otherwise. -/
def jsonLowerStr : Json → Except PyErr String
  | Json.str s => Except.ok (pyLower s)
  | v => Except.error (PyErr.attrErr (pyTypeName v ++ " object has no attribute lower"))

/-- `r.get("hiring_status", "").lower() == target` (src/scrape.py
lines 184, 187, 223). -/
def statusIs (r : PyDict) (target : String) : Except PyErr Bool :=
  match jsonLowerStr (dictGetD r "hiring_status" (Json.str "")) with
  | Except.ok s => Except.ok (s = target)
  | Except.error e => Except.error e

/-- `r.get("contact_info", \x7b\x7d).get(k, "Not found") != "Not found"`
(lines 192-205): the `.get` on the inner value is an AttributeError unless it
is a dict. -/
def hasContact (r : PyDict) (k : String) : Except PyErr Bool :=
  match dictGetD r "contact_info" (Json.obj []) with
  | Json.obj kvs => Except.ok (dictGetD kvs k (Json.str "Not found") ≠ Json.str "Not found")
  | v => Except.error (PyErr.attrErr (pyTypeName v ++ " object has no attribute get"))

/-- A Python list comprehension `[r for r in results if p(r)]`: the predicate
runs left to right and its first fault propagates. -/
def filterE (p : PyDict → Except PyErr Bool) : List PyDict → Except PyErr (List PyDict)
  | [] => Except.ok []
  | r :: rs =>
    match p r with
    | Except.error e => Except.error e
    | Except.ok b =>
      match filterE p rs with
      | Except.error e => Except.error e
      | Except.ok rest => Except.ok (if b then r :: rest else rest)

/-- Python `x / y` (percent computations): a ZeroDivisionError when `y = 0`.
The quotient is recorded as the exact pair numerator/denominator (float
rounding is out of scope; only the zero test matters to the claims). -/
def pyDiv (a : Int) (b : Nat) : Except PyErr (Int × Nat) :=
  if b = 0 then Except.error PyErr.zeroDiv else Except.ok (a, b)

/-- Everything `generate_summary_report` computes for a non-empty input. -/
structure Report where
  total : Nat
  errCount : Nat
  successful : Nat
  hiringYes : Nat
  hiringNo : Nat
  hiringUnknown : Int
  hasWebsite : Nat
  hasEmail : Nat
  pctSuccessful : Int × Nat
  pctErrors : Int × Nat
  pctYes : Int × Nat
  pctNo : Int × Nat
  pctUnknown : Int × Nat
  pctWebsite : Int × Nat
  pctEmail : Int × Nat
  hiringCompanies : List PyDict
deriving DecidableEq

/-- `generate_summary_report` (src/scrape.py lines 161-233).  An empty input
prints "No results to analyze." and returns before any computation
(modelled as `Except.ok none`); otherwise the counts, percentages and the
hiring list are computed in the source's order, the first dynamic fault
propagating (modelled as `Except.error`). -/
def generate_summary_report (results : List PyDict) :
    Except PyErr (Option Report) :=
  if results = [] then Except.ok none
  else
    let total := results.length
    let errs := (results.filter (fun r => hasKeyB r "error")).length
    let succ2 := total - errs
    match filterE (fun r => statusIs r "yes") results with
    | Except.error e => Except.error e
    | Except.ok yesL =>
      match filterE (fun r => statusIs r "no") results with
      | Except.error e => Except.error e
      | Except.ok noL =>
        match filterE (fun r => hasContact r "website") results with
        | Except.error e => Except.error e
        | Except.ok webL =>
          match filterE (fun r => hasContact r "email") results with
          | Except.error e => Except.error e
          | Except.ok emailL =>
            let hUnk : Int := (total : Int) - yesL.length - noL.length
            match pyDiv succ2 total with
            | Except.error e => Except.error e
            | Except.ok pS =>
              match pyDiv errs total with
              | Except.error e => Except.error e
              | Except.ok pE =>
                match pyDiv yesL.length total with
                | Except.error e => Except.error e
                | Except.ok pY =>
                  match pyDiv noL.length total with
                  | Except.error e => Except.error e
                  | Except.ok pN =>
                    match pyDiv hUnk total with
                    | Except.error e => Except.error e
                    | Except.ok pU =>
                      match pyDiv webL.length total with
                      | Except.error e => Except.error e
                      | Except.ok pW =>
                        match pyDiv emailL.length total with
                        | Except.error e => Except.error e
                        | Except.ok pM =>
                          match filterE (fun r => statusIs r "yes") results with
                          | Except.error e => Except.error e
                          | Except.ok companies =>
                            Except.ok (some
                              ⟨total, errs, succ2, yesL.length, noL.length,
                               hUnk, webL.length, emailL.length,
                               (pS.1 * 100, pS.2), (pE.1 * 100, pE.2),
                               (pY.1 * 100, pY.2), (pN.1 * 100, pN.2),
                               (pU.1 * 100, pU.2), (pW.1 * 100, pW.2),
                               (pM.1 * 100, pM.2), companies⟩)

deriving instance DecidableEq for Except

/-! ## Properties of the normalizer branches -/

/-- `end_idx = rfind + 1` is never -1, so the source's guard
`start_idx != -1 and end_idx != -1` collapses to `start_idx != -1`. -/
theorem jsonEnd_ne_neg_one (cs : List Char) : jsonEnd cs ≠ -1 := by
  have := pyRfind_ge_neg_one cs '\x7d'
  simp only [jsonEnd]
  omega

/-- The JSON branch of `search_startup_info` is taken exactly when the text
contains an opening brace. -/
theorem jsonGuard_iff (cs : List Char) :
    (jsonStart cs ≠ -1 ∧ jsonEnd cs ≠ -1) ↔ '\x7b' ∈ cs := by
  constructor
  · intro h
    by_contra hm
    exact h.1 ((pyFind_eq_neg_one_iff cs '\x7b').mpr hm)
  · intro h
    refine ⟨fun he => ?_, jsonEnd_ne_neg_one cs⟩
    exact ((pyFind_eq_neg_one_iff cs '\x7b').mp he) h

/-- Every record out of the normalizer is the parsed object of the clean-JSON
branch, or one of the two fallback records. -/
theorem searchRecord_cases (name text : String) :
    (∃ kvs, loads (extractJsonStr text) = some (Json.obj kvs) ∧
      searchRecordOfText name text = kvs) ∨
    searchRecordOfText name text = fallbackNoJson name text ∨
    searchRecordOfText name text = fallbackRaw name text := by
  by_cases hg : jsonStart text.toList ≠ -1 ∧ jsonEnd text.toList ≠ -1
  · cases hl : loads (extractJsonStr text) with
    | none =>
        refine Or.inr (Or.inr ?_)
        unfold searchRecordOfText
        rw [if_pos hg, hl]
    | some v =>
        cases v with
        | obj kvs =>
            refine Or.inl ⟨kvs, hl ▸ rfl, ?_⟩
            unfold searchRecordOfText
            rw [if_pos hg, hl]
        | null =>
            refine Or.inr (Or.inr ?_)
            unfold searchRecordOfText
            rw [if_pos hg, hl]
        | bool b =>
            refine Or.inr (Or.inr ?_)
            unfold searchRecordOfText
            rw [if_pos hg, hl]
        | num n =>
            refine Or.inr (Or.inr ?_)
            unfold searchRecordOfText
            rw [if_pos hg, hl]
        | str s =>
            refine Or.inr (Or.inr ?_)
            unfold searchRecordOfText
            rw [if_pos hg, hl]
        | arr xs =>
            refine Or.inr (Or.inr ?_)
            unfold searchRecordOfText
            rw [if_pos hg, hl]
  · refine Or.inr (Or.inl ?_)
    unfold searchRecordOfText
    rw [if_neg hg]

/-- With no opening brace in the text, the no-JSON fallback is returned. -/
theorem searchRecord_of_no_brace (name text : String)
    (h : '\x7b' ∉ text.toList) :
    searchRecordOfText name text = fallbackNoJson name text := by
  unfold searchRecordOfText
  rw [if_neg]
  intro hg
  exact h ((jsonGuard_iff text.toList).mp hg)

/-- With an opening brace present but the extracted slice unparseable, the
raw-response fallback is returned. -/
theorem searchRecord_of_parse_fail (name text : String)
    (h : '\x7b' ∈ text.toList) (hl : loads (extractJsonStr text) = none) :
    searchRecordOfText name text = fallbackRaw name text := by
  unfold searchRecordOfText
  rw [if_pos ((jsonGuard_iff text.toList).mpr h), hl]

/-- With `\x7b` present and no `\x7d`, `rfind` gives -1, `end_idx` is 0, and
the extracted slice is empty. -/
theorem extractJsonStr_of_no_close (text : String)
    (h : '\x7d' ∉ text.toList) : extractJsonStr text = "" := by
  unfold extractJsonStr jsonEnd
  rw [(pyRfind_eq_neg_one_iff text.toList '\x7d').mpr h]
  simp

/-- The empty string is not valid JSON. -/
theorem loads_empty : loads "" = none := rfl

/-! ## Claim theorems: the normalizer and the searcher -/

/-- C4: the normalizer distinguishes its two fallback sub-cases.  A text with
no braces at all yields the fallback whose `description` is the whole raw
text and which carries no `raw_response` key; a text where braces are found
but the extracted substring fails to parse yields the fallback that
additionally stores the raw text under `raw_response`.  In both records
`hiring_status` is "unknown" and every `contact_info` field is "Not found"
(visible in `fallbackNoJson`, `fallbackRaw` and `contactNotFound`); the
normalizer is a total function, so no exception escapes it. -/
theorem C4_two_fallback_subcases :
    ∀ name text : String,
      ('\x7b' ∉ text.toList → '\x7d' ∉ text.toList →
        searchRecordOfText name text = fallbackNoJson name text ∧
        hasKeyB (searchRecordOfText name text) "raw_response" = false ∧
        dictGetD (searchRecordOfText name text) "description" Json.null =
          Json.str text) ∧
      ('\x7b' ∈ text.toList → loads (extractJsonStr text) = none →
        searchRecordOfText name text = fallbackRaw name text ∧
        dictGetD (searchRecordOfText name text) "raw_response" Json.null =
          Json.str text ∧
        dictGetD (searchRecordOfText name text) "description" Json.null =
          Json.str text) := by
  intro name text
  constructor
  · intro ho hc
    have h := searchRecord_of_no_brace name text ho
    refine ⟨h, ?_, ?_⟩ <;> rw [h] <;> rfl
  · intro ho hl
    have h := searchRecord_of_parse_fail name text ho hl
    refine ⟨h, ?_, ?_⟩ <;> rw [h] <;> rfl

/-- Witness for C4 at the spec's two scenario texts. -/
theorem C4_two_fallback_subcases_witness :
    searchRecordOfText "Zyx123" "Sorry, I found nothing about Zyx123." =
      fallbackNoJson "Zyx123" "Sorry, I found nothing about Zyx123." ∧
    searchRecordOfText "Acme" "Here is data: \x7bnot valid json\x7d" =
      fallbackRaw "Acme" "Here is data: \x7bnot valid json\x7d" := by
  refine ⟨((C4_two_fallback_subcases "Zyx123"
      "Sorry, I found nothing about Zyx123.").1 (by decide) (by decide)).1,
    ((C4_two_fallback_subcases "Acme"
      "Here is data: \x7bnot valid json\x7d").2 (by decide) (by decide)).1⟩

/-- C10: for a text containing `\x7b` but no `\x7d`, `rfind` returns -1, so
`end_idx` is 0, the guard still holds (`0 != -1`), the extracted slice is
empty and fails to parse, and the parse-failure fallback (description and
raw_response both the raw text) is produced — never the no-braces fallback;
the no-braces branch is taken exactly when the text has no `\x7b` at all. -/
theorem C10_open_brace_without_close :
    ∀ name text : String,
      ((jsonStart text.toList ≠ -1 ∧ jsonEnd text.toList ≠ -1) ↔
        '\x7b' ∈ text.toList) ∧
      ('\x7b' ∈ text.toList → '\x7d' ∉ text.toList →
        extractJsonStr text = "" ∧
        searchRecordOfText name text = fallbackRaw name text ∧
        searchRecordOfText name text ≠ fallbackNoJson name text) := by
  intro name text
  refine ⟨jsonGuard_iff text.toList, fun ho hc => ?_⟩
  have he : extractJsonStr text = "" := extractJsonStr_of_no_close text hc
  have hr : searchRecordOfText name text = fallbackRaw name text :=
    searchRecord_of_parse_fail name text ho (by rw [he]; rfl)
  refine ⟨he, hr, ?_⟩
  rw [hr]
  intro hcontra
  have hlen : (fallbackRaw name text).length = (fallbackNoJson name text).length :=
    congrArg List.length hcontra
  simp [fallbackRaw, fallbackNoJson] at hlen

/-- Witness for C10 at a concrete text with an unclosed brace. -/
theorem C10_open_brace_without_close_witness :
    extractJsonStr "abc\x7bdef" = "" ∧
    searchRecordOfText "Acme" "abc\x7bdef" = fallbackRaw "Acme" "abc\x7bdef" := by
  have h := (C10_open_brace_without_close "Acme" "abc\x7bdef").2
    (by decide) (by decide)
  exact ⟨h.1, h.2.1⟩

/-- C5: a fault raised by the external query invocation is converted into a
record with `error` set to a descriptive message, `description` =
"Error occurred during search", `hiring_status` = "unknown", and every
`contact_info` field "Not found"; nothing is raised to the caller
(`search_startup_info` is total by construction). -/
theorem C5_invocation_fault_contained :
    ∀ (invoke : String → Except String String) (name e : String),
      invoke name = Except.error e →
      search_startup_info invoke name =
        [("startup_name", Json.str name),
         ("error", Json.str ("Failed to search for startup: " ++ e)),
         ("description", Json.str "Error occurred during search"),
         ("hiring_status", Json.str "unknown"),
         ("contact_info", contactNotFound)] := by
  intro invoke name e h
  unfold search_startup_info
  rw [h]
  rfl

/-- Witness for C5 at a concrete fault. -/
theorem C5_invocation_fault_contained_witness :
    search_startup_info (fun _ => Except.error "the network timed out")
        "Widgetco" =
      [("startup_name", Json.str "Widgetco"),
       ("error", Json.str
         ("Failed to search for startup: " ++ "the network timed out")),
       ("description", Json.str "Error occurred during search"),
       ("hiring_status", Json.str "unknown"),
       ("contact_info", contactNotFound)] :=
  C5_invocation_fault_contained (fun _ => Except.error "the network timed out")
    "Widgetco" "the network timed out" rfl

/-- C2 counterexample: the clean-JSON branch returns the parsed object as-is,
so a response of `\x7b"a": 1\x7d` produces a record with none of the schema's
top-level fields — `description`, `keywords` and `hiring_status` are all
absent, refuting the claim that every record carries all five fields. -/
theorem C2_counterexample :
    search_startup_info (fun _ => Except.ok "\x7b\"a\": 1\x7d") "Acme" =
      [("a", Json.num 1)] ∧
    hasKeyB (search_startup_info (fun _ => Except.ok "\x7b\"a\": 1\x7d") "Acme")
      "description" = false ∧
    hasKeyB (search_startup_info (fun _ => Except.ok "\x7b\"a\": 1\x7d") "Acme")
      "keywords" = false ∧
    hasKeyB (search_startup_info (fun _ => Except.ok "\x7b\"a\": 1\x7d") "Acme")
      "hiring_status" = false := by decide

/-- C2 (amended): every record produced by `search_startup_info` either is
the parsed JSON object of the clean-JSON branch taken verbatim (with no field
guarantee at all), or comes from a fallback/error branch and then carries the
four fields `startup_name`, `description`, `hiring_status` and
`contact_info` — but never a `keywords` field, which no branch constructs. -/
theorem C2_field_presence_amended :
    ∀ (invoke : String → Except String String) (name : String),
      (∃ t kvs, invoke name = Except.ok t ∧
        loads (extractJsonStr t) = some (Json.obj kvs) ∧
        search_startup_info invoke name = kvs) ∨
      (hasKeyB (search_startup_info invoke name) "startup_name" = true ∧
       hasKeyB (search_startup_info invoke name) "description" = true ∧
       hasKeyB (search_startup_info invoke name) "hiring_status" = true ∧
       hasKeyB (search_startup_info invoke name) "contact_info" = true ∧
       hasKeyB (search_startup_info invoke name) "keywords" = false) := by
  intro invoke name
  cases hi : invoke name with
  | error e =>
      have hs : search_startup_info invoke name = errorRecord name e := by
        unfold search_startup_info
        rw [hi]
      rw [hs]
      exact Or.inr ⟨rfl, rfl, rfl, rfl, rfl⟩
  | ok t =>
      have hs : search_startup_info invoke name = searchRecordOfText name t := by
        unfold search_startup_info
        rw [hi]
      rcases searchRecord_cases name t with ⟨kvs, hl, hr⟩ | hr | hr
      · exact Or.inl ⟨t, kvs, rfl, hl, by rw [hs, hr]⟩
      · rw [hs, hr]
        exact Or.inr ⟨rfl, rfl, rfl, rfl, rfl⟩
      · rw [hs, hr]
        exact Or.inr ⟨rfl, rfl, rfl, rfl, rfl⟩

/-- C7 counterexample: the clean-JSON branch does not normalize
`hiring_status`; a parsed record keeps the value "maybe", which is not
"yes"/"no"/"unknown" under any casing. -/
theorem C7_counterexample :
    dictGetD (search_startup_info
        (fun _ => Except.ok "\x7b\"hiring_status\": \"maybe\"\x7d") "Acme")
      "hiring_status" (Json.str "unknown") = Json.str "maybe" ∧
    pyLower "maybe" ≠ "yes" ∧ pyLower "maybe" ≠ "no" ∧
    pyLower "maybe" ≠ "unknown" := by decide

/-- C7 (amended): the fallback and error branches set `hiring_status` to the
literal "unknown"; the clean-JSON branch returns the parsed object unchanged,
so an absent or invalid `hiring_status` is NOT normalized in the record
itself — such values are only treated as "unknown" downstream (display
defaults and the aggregator's remainder bucket). -/
theorem C7_status_normalized_only_in_fallbacks :
    ∀ (invoke : String → Except String String) (name : String),
      (∃ t kvs, invoke name = Except.ok t ∧
        loads (extractJsonStr t) = some (Json.obj kvs) ∧
        search_startup_info invoke name = kvs) ∨
      dictGetD (search_startup_info invoke name) "hiring_status" Json.null =
        Json.str "unknown" := by
  intro invoke name
  cases hi : invoke name with
  | error e =>
      have hs : search_startup_info invoke name = errorRecord name e := by
        unfold search_startup_info
        rw [hi]
      rw [hs]
      exact Or.inr rfl
  | ok t =>
      have hs : search_startup_info invoke name = searchRecordOfText name t := by
        unfold search_startup_info
        rw [hi]
      rcases searchRecord_cases name t with ⟨kvs, hl, hr⟩ | hr | hr
      · exact Or.inl ⟨t, kvs, rfl, hl, by rw [hs, hr]⟩
      · rw [hs, hr]
        exact Or.inr rfl
      · rw [hs, hr]
        exact Or.inr rfl

/-! ## Properties of the batch runner -/

/-- What one loop iteration appends: the searcher's record, plus a second,
generic error record when the display block faults. -/
theorem processOne_results (searchFn : String → PyDict) (useFile saveOk : Bool)
    (st : RunState) (name : String) :
    (processOne searchFn useFile saveOk st name).results =
      if displayFault (searchFn name) then
        st.results ++ [searchFn name,
          outerErrorRecord name (loopFaultMsg (searchFn name))]
      else st.results ++ [searchFn name] := by
  unfold processOne
  by_cases h : displayFault (searchFn name)
  · simp [h]
  · simp only [h, if_false, Bool.false_eq_true]
    split
    · rfl
    · rfl

/-- The results accumulated by the loop depend only on the incoming results,
not on the loop index, the checkpoint configuration, the write-fault oracle
or the write history. -/
theorem scrapeLoop_results_congr (searchFn : String → PyDict)
    (u1 u2 : Bool) (f g : Nat → Bool) :
    ∀ (names : List String) (i j : Nat) (st st' : RunState),
      st.results = st'.results →
      (scrapeLoop searchFn u1 f names i st).results =
        (scrapeLoop searchFn u2 g names j st').results := by
  intro names
  induction names with
  | nil => intro i j st st' h; exact h
  | cons n ns ih =>
      intro i j st st' h
      refine ih (i + 1) (j + 1) _ _ ?_
      rw [processOne_results, processOne_results, h]

/-- Each loop iteration grows the results by one record, or by two when the
display block faults on the freshly appended record. -/
theorem scrapeLoop_results_length (searchFn : String → PyDict) (useFile : Bool)
    (saveOk : Nat → Bool) :
    ∀ (names : List String) (i : Nat) (st : RunState),
      (scrapeLoop searchFn useFile saveOk names i st).results.length =
        st.results.length + names.length +
          names.countP (fun n => displayFault (searchFn n)) := by
  intro names
  induction names with
  | nil => intro i st; simp [scrapeLoop]
  | cons n ns ih =>
      intro i st
      show (scrapeLoop searchFn useFile saveOk ns (i + 1) _).results.length = _
      rw [ih]
      rw [processOne_results]
      by_cases h : displayFault (searchFn n)
      · simp [h, List.countP_cons]
        omega
      · simp [h, List.countP_cons]
        omega

/-- C1 counterexample: with a response whose parsed `hiring_status` is the
number 5, the record is appended, then `status.lower()` inside the same `try`
raises, and the outer boundary appends a second, error record — the run over
one name returns two results, refuting `len(run(names)) == len(names)`. -/
theorem C1_counterexample :
    (scrape_startups
        (search_startup_info (fun _ => Except.ok "\x7b\"hiring_status\": 5\x7d"))
        true (fun _ => true) ["A"]).results.length = 2 ∧
    (scrape_startups
        (search_startup_info (fun _ => Except.ok "\x7b\"hiring_status\": 5\x7d"))
        true (fun _ => true) ["A"]).results.length ≠
      (["A"] : List String).length := by decide

/-- C1 (amended): every iteration appends exactly one record — the query
result, a normalizer fallback, or an error record — EXCEPT when the searcher
returns a record without an "error" key whose `hiring_status` is not a
string or whose `contact_info` is not a dict: then the brief-result display
inside the `try` raises after the append and the outer boundary appends a
second, generic error record.  Hence the result count is the input count
plus the number of such display-faulting entities: always `≥ len(names)`,
with equality exactly when no display fault occurs. -/
theorem C1_results_length_amended :
    ∀ (invoke : String → Except String String) (useFile : Bool)
      (saveOk : Nat → Bool) (names : List String),
      (scrape_startups (search_startup_info invoke) useFile saveOk
          names).results.length =
        names.length +
          names.countP (fun n => displayFault (search_startup_info invoke n)) := by
  intro invoke useFile saveOk names
  unfold scrape_startups
  by_cases h : names = []
  · simp [h]
  · rw [if_neg h, scrapeLoop_results_length]
    simp

/-- C3 counterexample: with the checkpoint configured, an entity handled by
the outer fault boundary appends its records but the run performs NO
checkpoint write at all (`_save_progress` sits at the end of the `try`, after
the display block, and the `except` path never calls it) — refuting the
claim that the checkpoint is overwritten after each entity including
outer-boundary error records. -/
theorem C3_counterexample :
    (scrape_startups
        (search_startup_info (fun _ => Except.ok "\x7b\"hiring_status\": 5\x7d"))
        true (fun _ => true) ["A"]).results.length = 2 ∧
    (scrape_startups
        (search_startup_info (fun _ => Except.ok "\x7b\"hiring_status\": 5\x7d"))
        true (fun _ => true) ["A"]).writes = [] := by decide

/-- C3 (amended): with a checkpoint path configured, an entity whose
iteration completes the `try` block has its record appended and the
checkpoint file then overwritten with the full current sequence serialized
as JSON, before the next entity; but when the outer fault boundary catches a
display fault, the error record is appended WITHOUT any checkpoint write for
that entity; a checkpoint write fault neither aborts the run nor changes the
in-memory results. -/
theorem C3_checkpoint_amended :
    ∀ (searchFn : String → PyDict) (st : RunState) (name : String),
      (displayFault (searchFn name) = false →
        processOne searchFn true true st name =
          ⟨st.results ++ [searchFn name],
           st.writes ++ [saveContent (st.results ++ [searchFn name])]⟩) ∧
      (displayFault (searchFn name) = true →
        processOne searchFn true true st name =
          ⟨st.results ++ [searchFn name,
             outerErrorRecord name (loopFaultMsg (searchFn name))],
           st.writes⟩) ∧
      ((processOne searchFn true false st name).results =
        (processOne searchFn true true st name).results) ∧
      (∀ (f g : Nat → Bool) (useFile : Bool) (names : List String),
        (scrape_startups searchFn useFile f names).results =
          (scrape_startups searchFn useFile g names).results) := by
  intro searchFn st name
  refine ⟨fun h => ?_, fun h => ?_, ?_, ?_⟩
  · unfold processOne
    rw [if_neg (by simp [h])]
    simp
  · unfold processOne
    rw [if_pos h]
    simp
  · rw [processOne_results, processOne_results]
  · intro f g useFile names
    unfold scrape_startups
    by_cases h : names = []
    · simp [h]
    · rw [if_neg h, if_neg h]
      exact scrapeLoop_results_congr searchFn useFile useFile f g names 0 0 _ _ rfl

/-- Witness for C3 at a success-path entity and a write-fault run. -/
theorem C3_checkpoint_amended_witness :
    (displayFault (search_startup_info (fun _ => Except.error "x") "A") = false ∧
      processOne (search_startup_info (fun _ => Except.error "x")) true true
          ⟨[], []⟩ "A" =
        ⟨[] ++ [search_startup_info (fun _ => Except.error "x") "A"],
         [] ++ [saveContent
           ([] ++ [search_startup_info (fun _ => Except.error "x") "A"])]⟩) ∧
    (scrape_startups (search_startup_info (fun _ => Except.error "x")) true
        (fun _ => false) ["A"]).results =
      (scrape_startups (search_startup_info (fun _ => Except.error "x")) true
        (fun _ => true) ["A"]).results := by
  refine ⟨⟨by decide, (C3_checkpoint_amended
      (search_startup_info (fun _ => Except.error "x")) ⟨[], []⟩ "A").1
      (by decide)⟩, ?_⟩
  exact (C3_checkpoint_amended (search_startup_info (fun _ => Except.error "x"))
      ⟨[], []⟩ "A").2.2.2 (fun _ => false) (fun _ => true) true ["A"]

/-! ## Properties of the aggregator -/

/-- The pure value of the status comparison, defined whenever the record's
`hiring_status` is absent or a string. -/
def statusMatchesPure (r : PyDict) (t : String) : Bool :=
  match dictGetD r "hiring_status" (Json.str "") with
  | Json.str s => pyLower s = t
  | _ => false

/-- When the status comparison computes, it computes its pure value. -/
theorem statusIs_ok (r : PyDict) (t : String) (b : Bool)
    (h : statusIs r t = Except.ok b) : b = statusMatchesPure r t := by
  unfold statusIs jsonLowerStr at h
  unfold statusMatchesPure
  cases hv : dictGetD r "hiring_status" (Json.str "") <;> rw [hv] at h <;>
    simp_all

/-- A comprehension that computed successfully evaluated its predicate
successfully on every element. -/
theorem filterE_ok_all (p : PyDict → Except PyErr Bool) :
    ∀ (l : List PyDict) (out : List PyDict), filterE p l = Except.ok out →
      ∀ r ∈ l, ∃ b, p r = Except.ok b := by
  intro l
  induction l with
  | nil => simp
  | cons x xs ih =>
      intro out h r hr
      unfold filterE at h
      cases hp : p x with
      | error e => rw [hp] at h; simp at h
      | ok b =>
          rw [hp] at h
          cases hrec : filterE p xs with
          | error e => rw [hrec] at h; simp at h
          | ok rest =>
              rcases List.mem_cons.mp hr with rfl | hr2
              · exact ⟨b, hp⟩
              · exact ih rest hrec r hr2

/-- A comprehension whose predicate agrees with a pure one computes the pure
filter. -/
theorem filterE_of_pure (p : PyDict → Except PyErr Bool) (q : PyDict → Bool) :
    ∀ l : List PyDict, (∀ r ∈ l, p r = Except.ok (q r)) →
      filterE p l = Except.ok (l.filter q) := by
  intro l
  induction l with
  | nil => intro _; rfl
  | cons x xs ih =>
      intro h
      unfold filterE
      rw [h x (List.mem_cons_self x xs), ih (fun r hr => h r (List.mem_cons_of_mem x hr))]
      rw [List.filter_cons]

/-- Disjointness: no status string is both "yes" and "no", so the three
buckets of records partition the list. -/
theorem countP_status_partition (l : List PyDict) :
    l.countP (fun r => statusMatchesPure r "yes") +
      l.countP (fun r => statusMatchesPure r "no") +
      l.countP (fun r => !(statusMatchesPure r "yes") &&
        !(statusMatchesPure r "no")) = l.length := by
  induction l with
  | nil => rfl
  | cons x xs ih =>
      simp only [List.countP_cons, List.length_cons]
      have hdisj : ¬(statusMatchesPure x "yes" = true ∧
          statusMatchesPure x "no" = true) := by
        rintro ⟨h1, h2⟩
        unfold statusMatchesPure at h1 h2
        cases hv : dictGetD x "hiring_status" (Json.str "") <;> rw [hv] at h1 h2 <;>
          simp_all
      cases h1 : statusMatchesPure x "yes" with
      | false =>
          cases h2 : statusMatchesPure x "no" with
          | false => simp [h1, h2]; omega
          | true => simp [h1, h2]; omega
      | true =>
          cases h2 : statusMatchesPure x "no" with
          | false => simp [h1, h2]; omega
          | true => exact absurd ⟨h1, h2⟩ hdisj

/-- C6: for a non-empty result list whose hiring breakdown computes, the
"yes" and "no" buckets count records whose `hiring_status` (default empty
string) case-insensitively equals "yes" / "no"; the "unknown" bucket is
computed as total minus yes minus no (not by direct match), so it equals the
count of all remaining records — including those with a missing, empty, or
non-conforming status string — and the three buckets always sum to the
total. -/
theorem C6_hiring_breakdown :
    ∀ (results : List PyDict) (rep : Report),
      results ≠ [] →
      generate_summary_report results = Except.ok (some rep) →
      rep.total = results.length ∧
      rep.hiringYes = results.countP (fun r => statusMatchesPure r "yes") ∧
      rep.hiringNo = results.countP (fun r => statusMatchesPure r "no") ∧
      rep.hiringUnknown = (rep.total : Int) - rep.hiringYes - rep.hiringNo ∧
      rep.hiringUnknown = (results.countP (fun r =>
        !(statusMatchesPure r "yes") && !(statusMatchesPure r "no")) : Int) ∧
      (rep.hiringYes : Int) + rep.hiringNo + rep.hiringUnknown = rep.total := by
  intro results rep hne h
  unfold generate_summary_report at h
  rw [if_neg hne] at h
  cases h1 : filterE (fun r => statusIs r "yes") results with
  | error e => rw [h1] at h; simp at h
  | ok yesL =>
      rw [h1] at h
      cases h2 : filterE (fun r => statusIs r "no") results with
      | error e => rw [h2] at h; simp at h
      | ok noL =>
          rw [h2] at h
          cases h3 : filterE (fun r => hasContact r "website") results with
          | error e => rw [h3] at h; simp at h
          | ok webL =>
              rw [h3] at h
              cases h4 : filterE (fun r => hasContact r "email") results with
              | error e => rw [h4] at h; simp at h
              | ok emailL =>
                  rw [h4] at h
                  have hlen : results.length ≠ 0 :=
                    fun hz => hne (List.length_eq_zero.mp hz)
                  simp only [pyDiv, if_neg hlen, Except.ok.injEq,
                    Option.some.injEq] at h
                  have hyes : yesL =
                      results.filter (fun r => statusMatchesPure r "yes") := by
                    have hq : ∀ r ∈ results, statusIs r "yes" =
                        Except.ok (statusMatchesPure r "yes") := by
                      intro r hr
                      obtain ⟨b, hb⟩ :=
                        filterE_ok_all _ results yesL h1 r hr
                      rw [hb, statusIs_ok r "yes" b hb]
                    have h5 := filterE_of_pure _ _ results hq
                    rw [h1, Except.ok.injEq] at h5
                    exact h5
                  have hno : noL =
                      results.filter (fun r => statusMatchesPure r "no") := by
                    have hq : ∀ r ∈ results, statusIs r "no" =
                        Except.ok (statusMatchesPure r "no") := by
                      intro r hr
                      obtain ⟨b, hb⟩ :=
                        filterE_ok_all _ results noL h2 r hr
                      rw [hb, statusIs_ok r "no" b hb]
                    have h5 := filterE_of_pure _ _ results hq
                    rw [h2, Except.ok.injEq] at h5
                    exact h5
                  subst h
                  have hYc : yesL.length =
                      results.countP (fun r => statusMatchesPure r "yes") := by
                    rw [hyes, List.countP_eq_length_filter]
                  have hNc : noL.length =
                      results.countP (fun r => statusMatchesPure r "no") := by
                    rw [hno, List.countP_eq_length_filter]
                  have hpart := countP_status_partition results
                  refine ⟨rfl, hYc, hNc, rfl, ?_, ?_⟩
                  · show (results.length : Int) - yesL.length - noL.length = _
                    rw [hYc, hNc]
                    omega
                  · show (yesL.length : Int) + noL.length +
                      ((results.length : Int) - yesL.length - noL.length) =
                        results.length
                    omega

/-- Witness for C6 on a four-record list exercising each bucket: "YES"
(case-insensitive yes), "no", a non-conforming "maybe", and a record with no
status at all. -/
theorem C6_hiring_breakdown_witness :
    ([[("hiring_status", Json.str "YES")], [("hiring_status", Json.str "no")],
      [("hiring_status", Json.str "maybe")], []] : List PyDict) ≠ [] ∧
    ((⟨4, 0, 4, 1, 1, 2, 0, 0, (400, 4), (0, 4), (100, 4), (100, 4), (200, 4),
        (0, 4), (0, 4), [[("hiring_status", Json.str "YES")]]⟩ : Report).total =
      ([[("hiring_status", Json.str "YES")], [("hiring_status", Json.str "no")],
        [("hiring_status", Json.str "maybe")], []] : List PyDict).length) ∧
    (⟨4, 0, 4, 1, 1, 2, 0, 0, (400, 4), (0, 4), (100, 4), (100, 4), (200, 4),
        (0, 4), (0, 4), [[("hiring_status", Json.str "YES")]]⟩ : Report).hiringUnknown
      = (([[("hiring_status", Json.str "YES")], [("hiring_status", Json.str "no")],
          [("hiring_status", Json.str "maybe")], []] : List PyDict).countP (fun r =>
            !(statusMatchesPure r "yes") && !(statusMatchesPure r "no")) : Int) := by
  refine ⟨by decide, ?_, ?_⟩
  · exact (C6_hiring_breakdown
      [[("hiring_status", Json.str "YES")], [("hiring_status", Json.str "no")],
        [("hiring_status", Json.str "maybe")], []]
      ⟨4, 0, 4, 1, 1, 2, 0, 0, (400, 4), (0, 4), (100, 4), (100, 4), (200, 4),
        (0, 4), (0, 4), [[("hiring_status", Json.str "YES")]]⟩
      (by decide) (by decide)).1
  · exact (C6_hiring_breakdown
      [[("hiring_status", Json.str "YES")], [("hiring_status", Json.str "no")],
        [("hiring_status", Json.str "maybe")], []]
      ⟨4, 0, 4, 1, 1, 2, 0, 0, (400, 4), (0, 4), (100, 4), (100, 4), (200, 4),
        (0, 4), (0, 4), [[("hiring_status", Json.str "YES")]]⟩
      (by decide) (by decide)).2.2.2.2.1

/-- The status comparison can only raise an AttributeError, never a
ZeroDivisionError. -/
theorem statusIs_ne_zeroDiv (r : PyDict) (t : String) :
    statusIs r t ≠ Except.error PyErr.zeroDiv := by
  unfold statusIs jsonLowerStr
  cases dictGetD r "hiring_status" (Json.str "") <;> simp

/-- The contact lookup can only raise an AttributeError, never a
ZeroDivisionError. -/
theorem hasContact_ne_zeroDiv (r : PyDict) (k : String) :
    hasContact r k ≠ Except.error PyErr.zeroDiv := by
  unfold hasContact
  cases dictGetD r "contact_info" (Json.obj []) <;> simp

/-- A comprehension propagates only the faults of its predicate. -/
theorem filterE_ne_zeroDiv (p : PyDict → Except PyErr Bool)
    (hp : ∀ r, p r ≠ Except.error PyErr.zeroDiv) :
    ∀ l : List PyDict, filterE p l ≠ Except.error PyErr.zeroDiv := by
  intro l
  induction l with
  | nil => simp [filterE]
  | cons x xs ih =>
      unfold filterE
      cases hx : p x with
      | error e =>
          have := hp x
          rw [hx] at this
          simpa using this
      | ok b =>
          cases hrec : filterE p xs with
          | error e =>
              rw [hrec] at ih
              simpa using ih
          | ok rest => simp

/-- C8: on the empty result list the aggregator reports and returns before
any computation (no division happens); on any input, every division it
performs divides by the total count, which is nonzero past the early return,
so the division-by-zero branch is unreachable. -/
theorem C8_no_zero_division :
    ∀ results : List PyDict,
      (results = [] → generate_summary_report results = Except.ok none) ∧
      generate_summary_report results ≠ Except.error PyErr.zeroDiv := by
  intro results
  refine ⟨fun h => by rw [h]; rfl, ?_⟩
  by_cases hne : results = []
  · rw [hne]
    intro hcontra
    simp [generate_summary_report] at hcontra
  · unfold generate_summary_report
    rw [if_neg hne]
    have hlen : results.length ≠ 0 := fun hz => hne (List.length_eq_zero.mp hz)
    cases h1 : filterE (fun r => statusIs r "yes") results with
    | error e =>
        have hnz := filterE_ne_zeroDiv _
          (fun r => statusIs_ne_zeroDiv r "yes") results
        rw [h1] at hnz
        simpa using hnz
    | ok yesL =>
        cases h2 : filterE (fun r => statusIs r "no") results with
        | error e =>
            have hnz := filterE_ne_zeroDiv _
              (fun r => statusIs_ne_zeroDiv r "no") results
            rw [h2] at hnz
            simpa using hnz
        | ok noL =>
            cases h3 : filterE (fun r => hasContact r "website") results with
            | error e =>
                have hnz := filterE_ne_zeroDiv _
                  (fun r => hasContact_ne_zeroDiv r "website") results
                rw [h3] at hnz
                simpa using hnz
            | ok webL =>
                cases h4 : filterE (fun r => hasContact r "email") results with
                | error e =>
                    have hnz := filterE_ne_zeroDiv _
                      (fun r => hasContact_ne_zeroDiv r "email") results
                    rw [h4] at hnz
                    simpa using hnz
                | ok emailL =>
                    simp only [pyDiv, if_neg hlen]
                    simp

/-- Witness for C8 at the empty list and at a concrete singleton. -/
theorem C8_no_zero_division_witness :
    generate_summary_report [] = Except.ok none ∧
    generate_summary_report [[("hiring_status", Json.str "YES")]] ≠
      Except.error PyErr.zeroDiv :=
  ⟨(C8_no_zero_division []).1 rfl,
   (C8_no_zero_division [[("hiring_status", Json.str "YES")]]).2⟩

/-! ## Round trip of the checkpoint serialization -/

/-- Pairwise-distinct keys, the invariant every Python dict satisfies. -/
def keysDistinct : PyDict → Bool
  | [] => true
  | p :: ps => !(hasKeyB ps p.1) && keysDistinct ps

/-- Well-formedness of a JSON value as a Python object graph: every object's
keys are pairwise distinct (a Python dict cannot hold a key twice). -/
inductive WfJson : Json → Prop where
  | null : WfJson Json.null
  | bool : ∀ b, WfJson (Json.bool b)
  | num : ∀ n, WfJson (Json.num n)
  | str : ∀ s, WfJson (Json.str s)
  | arr : ∀ xs, (∀ x ∈ xs, WfJson x) → WfJson (Json.arr xs)
  | obj : ∀ kvs, keysDistinct kvs = true → (∀ p ∈ kvs, WfJson p.2) →
      WfJson (Json.obj kvs)

/-- The second component of a pair is smaller than the pair. -/
theorem sizeOf_snd_lt_pair (p : String × Json) : sizeOf p.2 < sizeOf p := by
  obtain ⟨a, b⟩ := p
  simp only [Prod.mk.sizeOf_spec]
  omega

/-- Structural induction over `Json` with member hypotheses for the nested
lists. -/
theorem jsonInd {P : Json → Prop}
    (h1 : P Json.null) (h2 : ∀ b, P (Json.bool b)) (h3 : ∀ n, P (Json.num n))
    (h4 : ∀ s, P (Json.str s))
    (h5 : ∀ xs, (∀ x ∈ xs, P x) → P (Json.arr xs))
    (h6 : ∀ kvs, (∀ p ∈ kvs, P p.2) → P (Json.obj kvs)) : ∀ v, P v
  | Json.null => h1
  | Json.bool b => h2 b
  | Json.num n => h3 n
  | Json.str s => h4 s
  | Json.arr xs => h5 xs (fun x hx =>
      have : sizeOf x < 1 + sizeOf xs := by
        have := List.sizeOf_lt_of_mem hx
        omega
      jsonInd h1 h2 h3 h4 h5 h6 x)
  | Json.obj kvs => h6 kvs (fun p hp =>
      have : sizeOf p.2 < 1 + sizeOf kvs := by
        have ha := List.sizeOf_lt_of_mem hp
        have hb := sizeOf_snd_lt_pair p
        omega
      jsonInd h1 h2 h3 h4 h5 h6 p.2)
termination_by v => sizeOf v

mutual

/-- Fuel sufficient for `parseVal` to parse the printed form of a value (the
shapes end in `+ 1` so that `f + needFuel v` matches the parser's fuel
pattern definitionally). -/
def needFuel : Json → Nat
  | Json.null => 1
  | Json.bool _ => 1
  | Json.num _ => 1
  | Json.str _ => 1
  | Json.arr [] => 1
  | Json.arr (x :: xs) => needItems (x :: xs) + 1
  | Json.obj [] => 1
  | Json.obj (p :: ps) => needPairs (p :: ps) + 1

/-- Fuel for the items loop of a printed array. -/
def needItems : List Json → Nat
  | [] => 0
  | x :: xs => needFuel x + needItems xs + 1

/-- Fuel for the pairs loop of a printed object. -/
def needPairs : List (String × Json) → Nat
  | [] => 0
  | p :: ps => needFuel p.2 + needPairs ps + 1

end

theorem skipWs_of_head (c : Char) (t : List Char) (h : isWs c = false) :
    skipWs (c :: t) = c :: t := by
  simp [skipWs, h]

theorem skipWs_cons_ws (c : Char) (t : List Char) (h : isWs c = true) :
    skipWs (c :: t) = skipWs t := by
  simp [skipWs, h]

theorem skipWs_replicate_space (n : Nat) (t : List Char) :
    skipWs (List.replicate n ' ' ++ t) = skipWs t := by
  induction n with
  | zero => rfl
  | succ m ih =>
      rw [List.replicate_succ, List.cons_append,
        skipWs_cons_ws ' ' (List.replicate m ' ' ++ t) (by decide), ih]

/-- `parseVal` looks only at the whitespace-normalized input. -/
theorem parseVal_congr (f : Nat) (cs cs' : List Char)
    (h : skipWs cs = skipWs cs') : parseVal f cs = parseVal f cs' := by
  cases f with
  | zero => rfl
  | succ g =>
      unfold parseVal
      rw [h]

/-- `skipWs` is idempotent. -/
theorem skipWs_idem (cs : List Char) : skipWs (skipWs cs) = skipWs cs := by
  induction cs with
  | nil => rfl
  | cons c t ih =>
      by_cases h : isWs c = true
      · rw [skipWs_cons_ws c t h]
        exact ih
      · rw [skipWs_of_head c t (by simpa using h), skipWs_of_head c t (by simpa using h)]

/-! ### Number round trip -/

theorem char_ne_of_toNat_ne {c d : Char} (h : c.toNat ≠ d.toNat) : c ≠ d :=
  fun he => h (he ▸ rfl)

theorem toNat_ofNat_digit (d : Nat) (h : d < 10) :
    (Char.ofNat (48 + d)).toNat = 48 + d := by
  interval_cases d <;> decide

theorem isDigitC_ofNat (d : Nat) (h : d < 10) :
    isDigitC (Char.ofNat (48 + d)) = true := by
  interval_cases d <;> decide

theorem isDigitC_toNat (c : Char) (h : isDigitC c = true) :
    48 ≤ c.toNat ∧ c.toNat ≤ 57 := by
  unfold isDigitC at h
  simp only [Bool.and_eq_true, decide_eq_true_eq] at h
  exact h

theorem natCharsAux_ne_nil : ∀ f n, n < f → natCharsAux f n ≠ [] := by
  intro f
  induction f with
  | zero => intro n h; omega
  | succ g ih =>
      intro n h
      unfold natCharsAux
      by_cases h10 : n < 10
      · rw [if_pos h10]; simp
      · rw [if_neg h10]; simp

theorem natCharsAux_digits : ∀ f n, n < f →
    ∀ c ∈ natCharsAux f n, isDigitC c = true := by
  intro f
  induction f with
  | zero => intro n h; omega
  | succ g ih =>
      intro n h c hc
      unfold natCharsAux at hc
      by_cases h10 : n < 10
      · rw [if_pos h10] at hc
        simp at hc
        subst hc
        exact isDigitC_ofNat n h10
      · rw [if_neg h10] at hc
        rcases List.mem_append.mp hc with hm | hm
        · have hlt : n / 10 < g := by
            have := Nat.div_lt_self (by omega : 0 < n) (by omega : 1 < 10)
            omega
          exact ih (n / 10) hlt c hm
        · simp at hm
          subst hm
          exact isDigitC_ofNat (n % 10) (Nat.mod_lt n (by omega))

theorem natCharsAux_head_ne_zero : ∀ f n, n < f → 0 < n →
    ∀ c t, natCharsAux f n = c :: t → c ≠ '0' := by
  intro f
  induction f with
  | zero => intro n h; omega
  | succ g ih =>
      intro n h hn c t hct
      unfold natCharsAux at hct
      by_cases h10 : n < 10
      · rw [if_pos h10] at hct
        injection hct with hc _
        subst hc
        apply char_ne_of_toNat_ne
        rw [toNat_ofNat_digit n h10]
        intro hcontra
        have : ('0' : Char).toNat = 48 := by decide
        omega
      · rw [if_neg h10] at hct
        have hlt : n / 10 < g := by
          have := Nat.div_lt_self (by omega : 0 < n) (by omega : 1 < 10)
          omega
        have hpos : 0 < n / 10 := by
          have := Nat.div_le_div_right (c := 10) (by omega : 10 ≤ n)
          simp at this
          omega
        cases hA : natCharsAux g (n / 10) with
        | nil => exact absurd hA (natCharsAux_ne_nil g (n / 10) hlt)
        | cons c0 t0 =>
            rw [hA] at hct
            injection hct with hc _
            subst hc
            exact ih (n / 10) hlt hpos c0 t0 hA

def noDigitHead : List Char → Bool
  | [] => true
  | d :: _ => !(isDigitC d)

theorem digitsLoop_stop (acc : Nat) (rest : List Char)
    (h : noDigitHead rest = true) : digitsLoop acc rest = (acc, rest) := by
  cases rest with
  | nil => rfl
  | cons d t =>
      unfold noDigitHead at h
      unfold digitsLoop
      simp only [Bool.not_eq_true'] at h
      rw [h]
      rfl

theorem digitsLoop_cons_digit (acc : Nat) (c : Char) (t : List Char)
    (h : isDigitC c = true) :
    digitsLoop acc (c :: t) = digitsLoop (acc * 10 + (c.toNat - 48)) t := by
  conv_lhs => unfold digitsLoop
  simp [h]

theorem digitsLoop_natCharsAux : ∀ f n, n < f → ∀ acc rest,
    digitsLoop acc (natCharsAux f n ++ rest) =
      digitsLoop (acc * 10 ^ (natCharsAux f n).length + n) rest := by
  intro f
  induction f with
  | zero => intro n h; omega
  | succ g ih =>
      intro n h acc rest
      by_cases h10 : n < 10
      · have hA : natCharsAux (g + 1) n = [Char.ofNat (48 + n)] := by
          unfold natCharsAux
          rw [if_pos h10]
        rw [hA, List.cons_append, List.nil_append,
          digitsLoop_cons_digit acc _ rest (isDigitC_ofNat n h10),
          toNat_ofNat_digit n h10]
        simp only [List.length_singleton, pow_one]
        congr 1
        omega
      · have hA : natCharsAux (g + 1) n =
            natCharsAux g (n / 10) ++ [Char.ofNat (48 + n % 10)] := by
          conv_lhs => unfold natCharsAux
          rw [if_neg h10]
        have hlt : n / 10 < g := by
          have := Nat.div_lt_self (by omega : 0 < n) (by omega : 1 < 10)
          omega
        rw [hA, List.append_assoc, ih (n / 10) hlt acc _, List.cons_append,
          List.nil_append,
          digitsLoop_cons_digit _ _ rest (isDigitC_ofNat (n % 10) (Nat.mod_lt n (by omega))),
          toNat_ofNat_digit (n % 10) (Nat.mod_lt n (by omega))]
        congr 1
        rw [List.length_append, List.length_singleton, pow_succ]
        have hm : n / 10 * 10 + n % 10 = n := by omega
        calc (acc * 10 ^ (natCharsAux g (n / 10)).length + n / 10) * 10 +
              (48 + n % 10 - 48)
            = acc * (10 ^ (natCharsAux g (n / 10)).length * 10) +
              (n / 10 * 10 + n % 10) := by ring_nf; omega
          _ = acc * (10 ^ (natCharsAux g (n / 10)).length * 10) + n := by
              rw [hm]

/-- A character list on which a just-parsed number is a complete token: empty
or starting with something that is neither a digit nor a float
continuation. -/
def noFollow : List Char → Bool
  | [] => true
  | d :: _ => !(isDigitC d || d = '.' || d = 'e' || d = 'E')

theorem noFollow_noDigitHead (rest : List Char) (h : noFollow rest = true) :
    noDigitHead rest = true := by
  cases rest with
  | nil => rfl
  | cons d t =>
      unfold noFollow at h
      unfold noDigitHead
      simp only [Bool.not_eq_true', Bool.or_eq_false_iff] at h
      simp [h.1]

theorem parseNumBody_natChars (neg : Bool) (n : Nat) (rest : List Char)
    (hf : noFollow rest = true) :
    parseNumBody neg (natChars n ++ rest) =
      some (Json.num (if neg then -(n : Int) else (n : Int)), rest) := by
  have hnd := noFollow_noDigitHead rest hf
  cases hA : natChars n with
  | nil => exact absurd hA (natCharsAux_ne_nil (n + 1) n (by omega))
  | cons c t =>
      have hmem : c ∈ natCharsAux (n + 1) n := by
        rw [show natCharsAux (n + 1) n = c :: t from hA]
        exact List.mem_cons_self c t
      have hdig : isDigitC c = true :=
        natCharsAux_digits (n + 1) n (by omega) c hmem
      have hq : (if c = '0' then (0, t ++ rest)
          else digitsLoop (c.toNat - 48) (t ++ rest)) = (n, rest) := by
        by_cases hn : n = 0
        · subst hn
          have h0 : natChars 0 = ['0'] := by decide
          rw [h0] at hA
          injection hA with hc ht
          subst hc
          subst ht
          simp
        · have hc0 : c ≠ '0' :=
            natCharsAux_head_ne_zero (n + 1) n (by omega) (by omega) c t hA
          rw [if_neg hc0]
          have e1 := digitsLoop_natCharsAux (n + 1) n (by omega) 0 rest
          rw [show natCharsAux (n + 1) n = c :: t from hA] at e1
          rw [List.cons_append,
            digitsLoop_cons_digit 0 c (t ++ rest) hdig] at e1
          simp only [Nat.zero_mul, Nat.zero_add] at e1
          rw [e1, digitsLoop_stop n rest hnd]
      rw [List.cons_append]
      simp only [parseNumBody, hdig, if_true, hq]
      cases rest with
      | nil => rfl
      | cons d t2 =>
          unfold noFollow at hf
          simp only [Bool.not_eq_true', Bool.or_eq_false_iff,
            decide_eq_false_iff_not] at hf
          have hd : (d = '.' || d = 'e' || d = 'E') = false := by
            simp [hf.1.1.2, hf.1.2, hf.2]
          simp only [hd]
          rfl

theorem parseNum_intChars (i : Int) (rest : List Char)
    (hf : noFollow rest = true) :
    parseNum (intChars i ++ rest) = some (Json.num i, rest) := by
  unfold intChars
  by_cases hi : i < 0
  · rw [if_pos hi, List.cons_append]
    show parseNumBody true (natChars i.natAbs ++ rest) = some (Json.num i, rest)
    rw [parseNumBody_natChars true i.natAbs rest hf]
    simp only [if_true]
    have hanb : -(i.natAbs : Int) = i := by omega
    rw [hanb]
  · rw [if_neg hi]
    have h := parseNumBody_natChars false i.toNat rest hf
    cases hA : natChars i.toNat with
    | nil => exact absurd hA (natCharsAux_ne_nil (i.toNat + 1) i.toNat (by omega))
    | cons c t =>
        have hmem : c ∈ natCharsAux (i.toNat + 1) i.toNat := by
          rw [show natCharsAux (i.toNat + 1) i.toNat = c :: t from hA]
          exact List.mem_cons_self c t
        have hdig : isDigitC c = true :=
          natCharsAux_digits (i.toNat + 1) i.toNat (by omega) c hmem
        have hcm : c ≠ '-' := by
          apply char_ne_of_toNat_ne
          have := isDigitC_toNat c hdig
          have h45 : ('-' : Char).toNat = 45 := by decide
          omega
        rw [hA] at h
        rw [List.cons_append] at h ⊢
        show (if c = '-' then parseNumBody true (t ++ rest)
          else parseNumBody false (c :: (t ++ rest))) = some (Json.num i, rest)
        have hti : ((i.toNat : Int)) = i := by omega
        rw [if_neg hcm, h]
        simp only [Bool.false_eq_true, if_false, hti]

/-! ### String round trip -/

theorem hexVal_hexDig (d : Nat) (h : d < 16) : hexVal (hexDig d) = some d := by
  interval_cases d <;> decide

theorem decodeEsc_quote (X : List Char) : decodeEsc ('\"' :: X) = some ('\"', X) := by
  unfold decodeEsc
  simp

theorem decodeEsc_backslash (X : List Char) :
    decodeEsc ('\\' :: X) = some ('\\', X) := by
  unfold decodeEsc
  simp

theorem decodeEsc_n (X : List Char) : decodeEsc ('n' :: X) = some ('\n', X) := by
  unfold decodeEsc
  simp

theorem decodeEsc_r (X : List Char) : decodeEsc ('r' :: X) = some ('\r', X) := by
  unfold decodeEsc
  simp

theorem decodeEsc_t (X : List Char) : decodeEsc ('t' :: X) = some ('\t', X) := by
  unfold decodeEsc
  simp

theorem decodeEsc_b (X : List Char) : decodeEsc ('b' :: X) = some ('\x08', X) := by
  unfold decodeEsc
  simp

theorem decodeEsc_f (X : List Char) : decodeEsc ('f' :: X) = some ('\x0c', X) := by
  unfold decodeEsc
  simp

theorem decodeEsc_u_ctrl (c : Char) (h : c.toNat < 32) (X : List Char) :
    decodeEsc ('u' :: '0' :: '0' :: hexDig (c.toNat / 16) ::
      hexDig (c.toNat % 16) :: X) = some (c, X) := by
  unfold decodeEsc
  simp only [show ('u' : Char) = '\"' ↔ False by decide,
    show ('u' : Char) = '\\' ↔ False by decide,
    show ('u' : Char) = '/' ↔ False by decide,
    show ('u' : Char) = 'b' ↔ False by decide,
    show ('u' : Char) = 'f' ↔ False by decide,
    show ('u' : Char) = 'n' ↔ False by decide,
    show ('u' : Char) = 'r' ↔ False by decide,
    show ('u' : Char) = 't' ↔ False by decide,
    if_false, if_true, iff_false]
  have hx : hex4 '0' '0' (hexDig (c.toNat / 16)) (hexDig (c.toNat % 16)) =
      some c.toNat := by
    unfold hex4
    rw [show hexVal '0' = some 0 from rfl]
    rw [hexVal_hexDig (c.toNat / 16) (by omega),
      hexVal_hexDig (c.toNat % 16) (by omega)]
    show some (((0 * 16 + 0) * 16 + c.toNat / 16) * 16 + c.toNat % 16) =
      some c.toNat
    congr 1
    omega
  rw [hx]
  simp only [if_neg (show ¬(55296 ≤ c.toNat ∧ c.toNat ≤ 56319) by omega),
    if_neg (show ¬(56320 ≤ c.toNat ∧ c.toNat ≤ 57343) by omega),
    Char.ofNat_toNat c]

theorem parseStrCharsF_quote (f : Nat) (X : List Char) :
    parseStrCharsF (f + 1) ('\"' :: X) = some ([], X) := by
  unfold parseStrCharsF
  simp

theorem parseStrCharsF_esc (f : Nat) (r r2 : List Char) (d : Char)
    (h : decodeEsc r = some (d, r2)) :
    parseStrCharsF (f + 1) ('\\' :: r) =
      (parseStrCharsF f r2).map (fun p => (d :: p.1, p.2)) := by
  conv_lhs => unfold parseStrCharsF
  simp [h]

theorem parseStrCharsF_plain (f : Nat) (c : Char) (r : List Char)
    (h1 : c ≠ '\"') (h2 : c ≠ '\\') (h3 : ¬c.toNat < 32) :
    parseStrCharsF (f + 1) (c :: r) =
      (parseStrCharsF f r).map (fun p => (c :: p.1, p.2)) := by
  conv_lhs => unfold parseStrCharsF
  simp [h1, h2, h3]

theorem escChars_length_ge (cs : List Char) :
    cs.length ≤ (escChars cs).length := by
  induction cs with
  | nil => simp [escChars]
  | cons c t ih =>
      show (c :: t).length ≤ (escChar c ++ escChars t).length
      rw [List.length_append, List.length_cons]
      have h1 : 1 ≤ (escChar c).length := by
        unfold escChar
        split_ifs <;> simp
      omega

theorem parseStrCharsF_escChars :
    ∀ (cs : List Char) (f : Nat) (rest : List Char),
      parseStrCharsF (f + (cs.length + 1)) (escChars cs ++ '\"' :: rest) =
        some (cs, rest) := by
  intro cs
  induction cs with
  | nil => intro f rest; exact parseStrCharsF_quote f rest
  | cons c t ih =>
      intro f rest
      rw [show escChars (c :: t) = escChar c ++ escChars t from rfl,
        List.append_assoc]
      have hfuel : f + ((c :: t).length + 1) = (f + (t.length + 1)) + 1 := by
        simp only [List.length_cons]
        omega
      rw [hfuel]
      unfold escChar
      by_cases h1 : c = '\"'
      · subst h1
        rw [if_pos rfl]
        rw [show (['\\', '\"'] : List Char) ++ (escChars t ++ '\"' :: rest) =
          '\\' :: ('\"' :: (escChars t ++ '\"' :: rest)) from rfl]
        rw [parseStrCharsF_esc _ _ _ _ (decodeEsc_quote _), ih f rest]
        rfl
      · rw [if_neg h1]
        by_cases h2 : c = '\\'
        · subst h2
          rw [if_pos rfl]
          rw [show (['\\', '\\'] : List Char) ++ (escChars t ++ '\"' :: rest) =
            '\\' :: ('\\' :: (escChars t ++ '\"' :: rest)) from rfl]
          rw [parseStrCharsF_esc _ _ _ _ (decodeEsc_backslash _), ih f rest]
          rfl
        · rw [if_neg h2]
          by_cases h3 : c = '\n'
          · subst h3
            rw [if_pos rfl]
            rw [show (['\\', 'n'] : List Char) ++ (escChars t ++ '\"' :: rest) =
              '\\' :: ('n' :: (escChars t ++ '\"' :: rest)) from rfl]
            rw [parseStrCharsF_esc _ _ _ _ (decodeEsc_n _), ih f rest]
            rfl
          · rw [if_neg h3]
            by_cases h4 : c = '\r'
            · subst h4
              rw [if_pos rfl]
              rw [show (['\\', 'r'] : List Char) ++ (escChars t ++ '\"' :: rest) =
                '\\' :: ('r' :: (escChars t ++ '\"' :: rest)) from rfl]
              rw [parseStrCharsF_esc _ _ _ _ (decodeEsc_r _), ih f rest]
              rfl
            · rw [if_neg h4]
              by_cases h5 : c = '\t'
              · subst h5
                rw [if_pos rfl]
                rw [show (['\\', 't'] : List Char) ++ (escChars t ++ '\"' :: rest) =
                  '\\' :: ('t' :: (escChars t ++ '\"' :: rest)) from rfl]
                rw [parseStrCharsF_esc _ _ _ _ (decodeEsc_t _), ih f rest]
                rfl
              · rw [if_neg h5]
                by_cases h6 : c = '\x08'
                · subst h6
                  rw [if_pos rfl]
                  rw [show (['\\', 'b'] : List Char) ++ (escChars t ++ '\"' :: rest) =
                    '\\' :: ('b' :: (escChars t ++ '\"' :: rest)) from rfl]
                  rw [parseStrCharsF_esc _ _ _ _ (decodeEsc_b _), ih f rest]
                  rfl
                · rw [if_neg h6]
                  by_cases h7 : c = '\x0c'
                  · subst h7
                    rw [if_pos rfl]
                    rw [show (['\\', 'f'] : List Char) ++ (escChars t ++ '\"' :: rest) =
                      '\\' :: ('f' :: (escChars t ++ '\"' :: rest)) from rfl]
                    rw [parseStrCharsF_esc _ _ _ _ (decodeEsc_f _), ih f rest]
                    rfl
                  · rw [if_neg h7]
                    by_cases h8 : c.toNat < 32
                    · rw [if_pos h8]
                      rw [show (['\\', 'u', '0', '0', hexDig (c.toNat / 16),
                          hexDig (c.toNat % 16)] : List Char) ++
                          (escChars t ++ '\"' :: rest) =
                        '\\' :: ('u' :: '0' :: '0' :: hexDig (c.toNat / 16) ::
                          hexDig (c.toNat % 16) :: (escChars t ++ '\"' :: rest))
                        from rfl]
                      rw [parseStrCharsF_esc _ _ _ _ (decodeEsc_u_ctrl c h8 _),
                        ih f rest]
                      rfl
                    · rw [if_neg h8]
                      rw [show ([c] : List Char) ++ (escChars t ++ '\"' :: rest) =
                        c :: (escChars t ++ '\"' :: rest) from rfl]
                      rw [parseStrCharsF_plain _ c _ h1 h2 h8, ih f rest]
                      rfl

theorem parseStrChars_escChars (cs rest : List Char) :
    parseStrChars (escChars cs ++ '\"' :: rest) = some (cs, rest) := by
  unfold parseStrChars
  have hge := escChars_length_ge cs
  have hlen : (escChars cs ++ '\"' :: rest).length =
      ((escChars cs).length + rest.length - cs.length) + (cs.length + 1) := by
    rw [List.length_append, List.length_cons]
    omega
  rw [hlen, parseStrCharsF_escChars cs _ rest]

/-! ### The printed form of a value parses back -/

theorem isWs_eq_false (c : Char) (h1 : c ≠ ' ') (h2 : c ≠ '\t') (h3 : c ≠ '\n')
    (h4 : c ≠ '\r') : isWs c = false := by
  simp [isWs, h1, h2, h3, h4]

theorem digitC_ne (c : Char) (h : isDigitC c = true) (d : Char)
    (hd : d.toNat < 48 ∨ 57 < d.toNat) : c ≠ d := by
  have hb := isDigitC_toNat c h
  exact char_ne_of_toNat_ne (by omega)

theorem digitC_isWs_false (c : Char) (h : isDigitC c = true) : isWs c = false :=
  isWs_eq_false c (digitC_ne c h ' ' (by decide))
    (digitC_ne c h '\t' (by decide)) (digitC_ne c h '\n' (by decide))
    (digitC_ne c h '\r' (by decide))

/-- Every printed value starts with a non-whitespace character that is not a
closing bracket or brace. -/
theorem printVal_head (ind : Nat) (v : Json) :
    ∃ c t, printVal ind v = c :: t ∧ isWs c = false ∧ c ≠ ']' ∧ c ≠ '\x7d' := by
  cases v with
  | null => exact ⟨'n', _, by simp only [printVal]; rfl, by decide, by decide, by decide⟩
  | bool b =>
      cases b with
      | true => exact ⟨'t', _, by simp only [printVal]; rfl, by decide, by decide, by decide⟩
      | false => exact ⟨'f', _, by simp only [printVal]; rfl, by decide, by decide, by decide⟩
  | num n =>
      by_cases hn : n < 0
      · refine ⟨'-', natChars n.natAbs, ?_, by decide, by decide, by decide⟩
        simp [printVal, intChars, hn]
      · cases hA : natChars n.toNat with
        | nil => exact absurd hA (natCharsAux_ne_nil _ n.toNat (by omega))
        | cons c t =>
            have hmem : c ∈ natCharsAux (n.toNat + 1) n.toNat := by
              rw [show natCharsAux (n.toNat + 1) n.toNat = c :: t from hA]
              exact List.mem_cons_self c t
            have hdig : isDigitC c = true :=
              natCharsAux_digits (n.toNat + 1) n.toNat (by omega) c hmem
            refine ⟨c, t, ?_, digitC_isWs_false c hdig,
              digitC_ne c hdig ']' (by decide),
              digitC_ne c hdig '\x7d' (by decide)⟩
            simp only [printVal, intChars, if_neg hn]
            exact hA
  | str s => exact ⟨'\"', _, by simp only [printVal]; rfl, by decide, by decide, by decide⟩
  | arr xs =>
      cases xs with
      | nil => exact ⟨'[', _, by simp only [printVal]; rfl, by decide, by decide, by decide⟩
      | cons x t => exact ⟨'[', _, by simp only [printVal]; rfl, by decide, by decide, by decide⟩
  | obj kvs =>
      cases kvs with
      | nil => exact ⟨'\x7b', _, by simp only [printVal]; rfl, by decide, by decide, by decide⟩
      | cons q t => exact ⟨'\x7b', _, by simp only [printVal]; rfl, by decide, by decide, by decide⟩

theorem skipWs_ws_append (pre z : List Char) (h : ∀ c ∈ pre, isWs c = true) :
    skipWs (pre ++ z) = skipWs z := by
  induction pre with
  | nil => rfl
  | cons c t ih =>
      rw [List.cons_append, skipWs_cons_ws c _ (h c (List.mem_cons_self c t))]
      exact ih (fun d hd => h d (List.mem_cons_of_mem c hd))

theorem ws_pad (n : Nat) : ∀ c ∈ '\n' :: List.replicate n ' ', isWs c = true := by
  intro c hc
  rcases List.mem_cons.mp hc with rfl | hc2
  · decide
  · rw [List.eq_of_mem_replicate hc2]
    decide

theorem parseVal_drop_ws (F : Nat) (pre z : List Char)
    (h : ∀ c ∈ pre, isWs c = true) : parseVal F (pre ++ z) = parseVal F z :=
  parseVal_congr F (pre ++ z) z (skipWs_ws_append pre z h)

theorem noFollow_printMoreA_tail (ind indc : Nat) (l : List Json)
    (rest : List Char) :
    noFollow (printMoreA ind l ++
      ('\n' :: (List.replicate indc ' ' ++ (']' :: rest)))) = true := by
  cases l with
  | nil => rfl
  | cons y l' => simp only [printMoreA, List.cons_append]; rfl

theorem parseVal_null_step (f : Nat) (cs rest : List Char)
    (hs : skipWs cs = 'n' :: 'u' :: 'l' :: 'l' :: rest) :
    parseVal (f + 1) cs = some (Json.null, rest) := by
  conv_lhs => unfold parseVal
  rw [hs]
  rfl

theorem parseVal_true_step (f : Nat) (cs rest : List Char)
    (hs : skipWs cs = 't' :: 'r' :: 'u' :: 'e' :: rest) :
    parseVal (f + 1) cs = some (Json.bool true, rest) := by
  conv_lhs => unfold parseVal
  rw [hs]
  rfl

theorem parseVal_false_step (f : Nat) (cs rest : List Char)
    (hs : skipWs cs = 'f' :: 'a' :: 'l' :: 's' :: 'e' :: rest) :
    parseVal (f + 1) cs = some (Json.bool false, rest) := by
  conv_lhs => unfold parseVal
  rw [hs]
  rfl

theorem parseVal_str_step (f : Nat) (cs r : List Char)
    (hs : skipWs cs = '\"' :: r) :
    parseVal (f + 1) cs =
      (parseStrChars r).map (fun p => (Json.str (String.mk p.1), p.2)) := by
  conv_lhs => unfold parseVal
  rw [hs]
  rfl

theorem char_eq_of_toNat (c : Char) (n : Nat) (h : c.toNat = n) :
    c = Char.ofNat n := by
  rw [← h, Char.ofNat_toNat]

theorem digit_or_minus_cases (c : Char) (h : isDigitC c = true ∨ c = '-') :
    c = '-' ∨ c = '0' ∨ c = '1' ∨ c = '2' ∨ c = '3' ∨ c = '4' ∨ c = '5' ∨
    c = '6' ∨ c = '7' ∨ c = '8' ∨ c = '9' := by
  rcases h with h | h
  · have hb := isDigitC_toNat c h
    have hor : c.toNat = 48 ∨ c.toNat = 49 ∨ c.toNat = 50 ∨ c.toNat = 51 ∨
        c.toNat = 52 ∨ c.toNat = 53 ∨ c.toNat = 54 ∨ c.toNat = 55 ∨
        c.toNat = 56 ∨ c.toNat = 57 := by omega
    rcases hor with h0 | h0 | h0 | h0 | h0 | h0 | h0 | h0 | h0 | h0 <;>
      rw [char_eq_of_toNat c _ h0] <;> simp
  · exact Or.inl h

theorem parseVal_num_step (f : Nat) (cs : List Char) (c : Char) (r : List Char)
    (hs : skipWs cs = c :: r) (hd : isDigitC c = true ∨ c = '-') :
    parseVal (f + 1) cs = parseNum (c :: r) := by
  conv_lhs => unfold parseVal
  rw [hs]
  rcases digit_or_minus_cases c hd with h | h | h | h | h | h | h | h | h | h | h <;>
    subst h <;> rfl

theorem parseVal_arr_empty_step (f : Nat) (cs r r2 : List Char)
    (hs : skipWs cs = '[' :: r) (hs2 : skipWs r = ']' :: r2) :
    parseVal (f + 1) cs = some (Json.arr [], r2) := by
  conv_lhs => unfold parseVal
  rw [hs]
  show (match skipWs r with
    | [] => none
    | c2 :: r2 =>
        if c2 = ']' then some (Json.arr [], r2)
        else (parseArrRest f r).map (fun p => (Json.arr p.1, p.2))) =
    some (Json.arr [], r2)
  rw [hs2]
  rfl

theorem parseVal_arr_step (f : Nat) (cs r : List Char) (c2 : Char)
    (r2 : List Char) (hs : skipWs cs = '[' :: r) (hs2 : skipWs r = c2 :: r2)
    (hne : c2 ≠ ']') :
    parseVal (f + 1) cs =
      (parseArrRest f r).map (fun p => (Json.arr p.1, p.2)) := by
  conv_lhs => unfold parseVal
  rw [hs]
  show (match skipWs r with
    | [] => none
    | c2 :: r2 =>
        if c2 = ']' then some (Json.arr [], r2)
        else (parseArrRest f r).map (fun p => (Json.arr p.1, p.2))) =
    (parseArrRest f r).map (fun p => (Json.arr p.1, p.2))
  rw [hs2]
  show (if c2 = ']' then some (Json.arr [], r2)
    else (parseArrRest f r).map (fun p => (Json.arr p.1, p.2))) =
    (parseArrRest f r).map (fun p => (Json.arr p.1, p.2))
  rw [if_neg hne]

theorem parseVal_obj_empty_step (f : Nat) (cs r r2 : List Char)
    (hs : skipWs cs = '\x7b' :: r) (hs2 : skipWs r = '\x7d' :: r2) :
    parseVal (f + 1) cs = some (Json.obj [], r2) := by
  conv_lhs => unfold parseVal
  rw [hs]
  show (match skipWs r with
    | [] => none
    | c2 :: r2 =>
        if c2 = '\x7d' then some (Json.obj [], r2)
        else (parseObjRest f r []).map (fun p => (Json.obj p.1, p.2))) =
    some (Json.obj [], r2)
  rw [hs2]
  rfl

theorem parseVal_obj_step (f : Nat) (cs r : List Char) (c2 : Char)
    (r2 : List Char) (hs : skipWs cs = '\x7b' :: r) (hs2 : skipWs r = c2 :: r2)
    (hne : c2 ≠ '\x7d') :
    parseVal (f + 1) cs =
      (parseObjRest f r []).map (fun p => (Json.obj p.1, p.2)) := by
  conv_lhs => unfold parseVal
  rw [hs]
  show (match skipWs r with
    | [] => none
    | c2 :: r2 =>
        if c2 = '\x7d' then some (Json.obj [], r2)
        else (parseObjRest f r []).map (fun p => (Json.obj p.1, p.2))) =
    (parseObjRest f r []).map (fun p => (Json.obj p.1, p.2))
  rw [hs2]
  show (if c2 = '\x7d' then some (Json.obj [], r2)
    else (parseObjRest f r []).map (fun p => (Json.obj p.1, p.2))) =
    (parseObjRest f r []).map (fun p => (Json.obj p.1, p.2))
  rw [if_neg hne]

theorem parseArrRest_step (f : Nat) (cs : List Char) (v : Json)
    (r1 : List Char) (c : Char) (r2 : List Char)
    (hv : parseVal f cs = some (v, r1)) (hd : skipWs r1 = c :: r2) :
    parseArrRest (f + 1) cs =
      (if c = ',' then (parseArrRest f r2).map (fun p => (v :: p.1, p.2))
       else if c = ']' then some ([v], r2) else none) := by
  conv_lhs => unfold parseArrRest
  rw [hv]
  show (match skipWs r1 with
    | [] => none
    | c :: r2 =>
        if c = ',' then (parseArrRest f r2).map
          (fun (p : List Json × List Char) => (v :: p.1, p.2))
        else if c = ']' then some ([v], r2) else none) = _
  rw [hd]

theorem parseObjRest_step (f : Nat) (cs : List Char) (acc : PyDict)
    (r k r1 : List Char) (v : Json) (rc r3 : List Char) (c3 : Char)
    (r4 : List Char) (hs : skipWs cs = '\"' :: r)
    (hk : parseStrChars r = some (k, r1)) (hcol : skipWs r1 = ':' :: rc)
    (hv : parseVal f rc = some (v, r3)) (hd : skipWs r3 = c3 :: r4) :
    parseObjRest (f + 1) cs acc =
      (if c3 = ',' then parseObjRest f r4 (pyInsert acc (String.mk k) v)
       else if c3 = '\x7d' then some (pyInsert acc (String.mk k) v, r4)
       else none) := by
  conv_lhs => unfold parseObjRest
  rw [hs]
  show (match parseStrChars r with
    | none => none
    | some (kcs, r1) =>
      match skipWs r1 with
      | [] => none
      | c2 :: r2 =>
        if c2 = ':' then
          match parseVal f r2 with
          | none => none
          | some (v, r3) =>
            let acc2 := pyInsert acc (String.mk kcs) v
            match skipWs r3 with
            | [] => none
            | c3 :: r4 =>
                if c3 = ',' then parseObjRest f r4 acc2
                else if c3 = '\x7d' then some (acc2, r4)
                else none
        else none) = _
  rw [hk]
  show (match skipWs r1 with
    | [] => none
    | c2 :: r2 =>
      if c2 = ':' then
        match parseVal f r2 with
        | none => none
        | some (v, r3) =>
          let acc2 := pyInsert acc (String.mk k) v
          match skipWs r3 with
          | [] => none
          | c3 :: r4 =>
              if c3 = ',' then parseObjRest f r4 acc2
              else if c3 = '\x7d' then some (acc2, r4)
              else none
      else none) = _
  rw [hcol]
  show (match parseVal f rc with
    | none => none
    | some (v, r3) =>
      let acc2 := pyInsert acc (String.mk k) v
      match skipWs r3 with
      | [] => none
      | c3 :: r4 =>
          if c3 = ',' then parseObjRest f r4 acc2
          else if c3 = '\x7d' then some (acc2, r4)
          else none) = _
  rw [hv]
  show (match skipWs r3 with
    | [] => none
    | c3 :: r4 =>
        if c3 = ',' then parseObjRest f r4 (pyInsert acc (String.mk k) v)
        else if c3 = '\x7d' then some (pyInsert acc (String.mk k) v, r4)
        else none) = _
  rw [hd]

theorem parseArrRest_loop :
    ∀ (l : List Json) (x : Json),
      (∀ y, (y = x ∨ y ∈ l) → ∀ ind f rest, noFollow rest = true →
        parseVal (f + needFuel y) (printVal ind y ++ rest) = some (y, rest)) →
      ∀ (ind indc f : Nat) (rest pre : List Char),
        (∀ c ∈ pre, isWs c = true) →
        parseArrRest (f + needItems (x :: l))
          (pre ++ (printVal ind x ++ (printMoreA ind l ++
            ('\n' :: (List.replicate indc ' ' ++ (']' :: rest)))))) =
          some (x :: l, rest) := by
  intro l
  induction l with
  | nil =>
      intro x hmem ind indc f rest pre hpre
      have hv : parseVal ((f + 0) + needFuel x)
          (pre ++ (printVal ind x ++ (printMoreA ind [] ++
            ('\n' :: (List.replicate indc ' ' ++ (']' :: rest)))))) =
          some (x, printMoreA ind [] ++
            ('\n' :: (List.replicate indc ' ' ++ (']' :: rest)))) := by
        rw [parseVal_drop_ws _ pre _ hpre]
        exact hmem x (Or.inl rfl) ind (f + 0) _
          (noFollow_printMoreA_tail ind indc [] rest)
      have hd : skipWs (printMoreA ind [] ++
          ('\n' :: (List.replicate indc ' ' ++ (']' :: rest)))) = ']' :: rest := by
        simp only [printMoreA, List.nil_append]
        rw [skipWs_cons_ws '\n' _ (by decide), skipWs_replicate_space,
          skipWs_of_head ']' rest (by decide)]
      rw [show f + needItems (x :: []) = ((f + 0) + needFuel x) + 1 by
        simp only [needItems]; omega]
      rw [parseArrRest_step _ _ x _ ']' rest hv hd]
      rfl
  | cons y l' ih =>
      intro x hmem ind indc f rest pre hpre
      have hv : parseVal ((f + needItems (y :: l')) + needFuel x)
          (pre ++ (printVal ind x ++ (printMoreA ind (y :: l') ++
            ('\n' :: (List.replicate indc ' ' ++ (']' :: rest)))))) =
          some (x, printMoreA ind (y :: l') ++
            ('\n' :: (List.replicate indc ' ' ++ (']' :: rest)))) := by
        rw [parseVal_drop_ws _ pre _ hpre]
        exact hmem x (Or.inl rfl) ind (f + needItems (y :: l')) _
          (noFollow_printMoreA_tail ind indc (y :: l') rest)
      have hmA : printMoreA ind (y :: l') ++
          ('\n' :: (List.replicate indc ' ' ++ (']' :: rest))) =
          ',' :: (('\n' :: List.replicate ind ' ') ++ (printVal ind y ++
            (printMoreA ind l' ++
              ('\n' :: (List.replicate indc ' ' ++ (']' :: rest)))))) := by
        simp only [printMoreA, List.cons_append, List.append_assoc]
      have hd : skipWs (printMoreA ind (y :: l') ++
          ('\n' :: (List.replicate indc ' ' ++ (']' :: rest)))) =
          ',' :: (('\n' :: List.replicate ind ' ') ++ (printVal ind y ++
            (printMoreA ind l' ++
              ('\n' :: (List.replicate indc ' ' ++ (']' :: rest)))))) := by
        rw [hmA]
        exact skipWs_of_head ',' _ (by decide)
      rw [show f + needItems (x :: y :: l') =
        ((f + needItems (y :: l')) + needFuel x) + 1 by
          simp only [needItems]; omega]
      rw [parseArrRest_step _ _ x _ ',' _ hv hd]
      rw [if_pos rfl]
      have hrec := ih y (fun z hz => hmem z (by
          rcases hz with rfl | hz2
          · exact Or.inr (List.mem_cons_self z l')
          · exact Or.inr (List.mem_cons_of_mem y hz2)))
        ind indc (f + needFuel x) rest ('\n' :: List.replicate ind ' ')
        (ws_pad ind)
      rw [show (f + needItems (y :: l')) + needFuel x =
        (f + needFuel x) + needItems (y :: l') by omega]
      rw [hrec]
      rfl

theorem noFollow_printMoreO_tail (ind indc : Nat) (ps : PyDict)
    (rest : List Char) :
    noFollow (printMoreO ind ps ++
      ('\n' :: (List.replicate indc ' ' ++ ('\x7d' :: rest)))) = true := by
  cases ps with
  | nil => rfl
  | cons q ps' => simp only [printMoreO, List.cons_append]; rfl

theorem hasKeyB_append_single (acc : PyDict) (k : String) (v : Json)
    (k2 : String) :
    hasKeyB (acc ++ [(k, v)]) k2 = (hasKeyB acc k2 || decide (k = k2)) := by
  simp [hasKeyB, List.any_append]

theorem pyInsert_fresh (acc : PyDict) (k : String) (v : Json)
    (h : hasKeyB acc k = false) : pyInsert acc k v = acc ++ [(k, v)] := by
  simp [pyInsert, h]

theorem hasKeyB_false_forall (ps : PyDict) (k : String)
    (h : hasKeyB ps k = false) : ∀ w ∈ ps, w.1 ≠ k := by
  intro w hw
  simp only [hasKeyB, List.any_eq_false, decide_eq_true_eq] at h
  exact h w hw

theorem parseObjRest_loop :
    ∀ (ps : PyDict) (q : String × Json),
      (∀ w, (w = q ∨ w ∈ ps) → ∀ ind f rest, noFollow rest = true →
        parseVal (f + needFuel w.2) (printVal ind w.2 ++ rest) =
          some (w.2, rest)) →
      keysDistinct (q :: ps) = true →
      ∀ (acc : PyDict), (∀ w, (w = q ∨ w ∈ ps) → hasKeyB acc w.1 = false) →
      ∀ (ind indc f : Nat) (rest pre : List Char),
        (∀ c ∈ pre, isWs c = true) →
        parseObjRest (f + needPairs (q :: ps))
          (pre ++ (printPair ind q ++ (printMoreO ind ps ++
            ('\n' :: (List.replicate indc ' ' ++ ('\x7d' :: rest)))))) acc =
          some (acc ++ (q :: ps), rest) := by
  intro ps
  induction ps with
  | nil =>
      intro q hmem hdist acc hfresh ind indc f rest pre hpre
      obtain ⟨k, v⟩ := q
      have hpp : printPair ind (k, v) ++ (printMoreO ind [] ++
          ('\n' :: (List.replicate indc ' ' ++ ('\x7d' :: rest)))) =
          '\"' :: (escChars k.toList ++ ('\"' :: ':' :: ' ' ::
            (printVal ind v ++ (printMoreO ind [] ++
              ('\n' :: (List.replicate indc ' ' ++ ('\x7d' :: rest))))))) := by
        simp only [printPair, List.cons_append, List.append_assoc]
      have hs : skipWs (pre ++ (printPair ind (k, v) ++ (printMoreO ind [] ++
          ('\n' :: (List.replicate indc ' ' ++ ('\x7d' :: rest)))))) =
          '\"' :: (escChars k.toList ++ ('\"' :: ':' :: ' ' ::
            (printVal ind v ++ (printMoreO ind [] ++
              ('\n' :: (List.replicate indc ' ' ++ ('\x7d' :: rest))))))) := by
        rw [skipWs_ws_append pre _ hpre, hpp]
        exact skipWs_of_head '\"' _ (by decide)
      have hk := parseStrChars_escChars k.toList (':' :: ' ' ::
        (printVal ind v ++ (printMoreO ind [] ++
          ('\n' :: (List.replicate indc ' ' ++ ('\x7d' :: rest))))))
      have hcol : skipWs (':' :: ' ' :: (printVal ind v ++ (printMoreO ind [] ++
          ('\n' :: (List.replicate indc ' ' ++ ('\x7d' :: rest)))))) =
          ':' :: (' ' :: (printVal ind v ++ (printMoreO ind [] ++
            ('\n' :: (List.replicate indc ' ' ++ ('\x7d' :: rest)))))) :=
        skipWs_of_head ':' _ (by decide)
      have hv : parseVal ((f + 0) + needFuel v)
          (' ' :: (printVal ind v ++ (printMoreO ind [] ++
            ('\n' :: (List.replicate indc ' ' ++ ('\x7d' :: rest)))))) =
          some (v, printMoreO ind [] ++
            ('\n' :: (List.replicate indc ' ' ++ ('\x7d' :: rest)))) := by
        rw [show (' ' :: (printVal ind v ++ (printMoreO ind [] ++
            ('\n' :: (List.replicate indc ' ' ++ ('\x7d' :: rest)))))) =
          [' '] ++ (printVal ind v ++ (printMoreO ind [] ++
            ('\n' :: (List.replicate indc ' ' ++ ('\x7d' :: rest))))) from rfl]
        rw [parseVal_drop_ws _ [' '] _ (by intro c hc; simp at hc; subst hc; decide)]
        exact hmem (k, v) (Or.inl rfl) ind (f + 0) _
          (noFollow_printMoreO_tail ind indc [] rest)
      have hd : skipWs (printMoreO ind [] ++
          ('\n' :: (List.replicate indc ' ' ++ ('\x7d' :: rest)))) =
          '\x7d' :: rest := by
        simp only [printMoreO, List.nil_append]
        rw [skipWs_cons_ws '\n' _ (by decide), skipWs_replicate_space,
          skipWs_of_head '\x7d' rest (by decide)]
      rw [show f + needPairs ((k, v) :: []) = ((f + 0) + needFuel v) + 1 by
        simp only [needPairs]; omega]
      rw [parseObjRest_step _ _ acc _ k.toList _ v _ _ '\x7d' rest hs hk hcol hv hd]
      rw [if_neg (by decide), if_pos rfl]
      rw [show String.mk k.toList = k from rfl]
      rw [pyInsert_fresh acc k v (hfresh (k, v) (Or.inl rfl))]
  | cons q2 ps' ih =>
      intro q hmem hdist acc hfresh ind indc f rest pre hpre
      obtain ⟨k, v⟩ := q
      have hpp : printPair ind (k, v) ++ (printMoreO ind (q2 :: ps') ++
          ('\n' :: (List.replicate indc ' ' ++ ('\x7d' :: rest)))) =
          '\"' :: (escChars k.toList ++ ('\"' :: ':' :: ' ' ::
            (printVal ind v ++ (printMoreO ind (q2 :: ps') ++
              ('\n' :: (List.replicate indc ' ' ++ ('\x7d' :: rest))))))) := by
        simp only [printPair, List.cons_append, List.append_assoc]
      have hs : skipWs (pre ++ (printPair ind (k, v) ++
          (printMoreO ind (q2 :: ps') ++
          ('\n' :: (List.replicate indc ' ' ++ ('\x7d' :: rest)))))) =
          '\"' :: (escChars k.toList ++ ('\"' :: ':' :: ' ' ::
            (printVal ind v ++ (printMoreO ind (q2 :: ps') ++
              ('\n' :: (List.replicate indc ' ' ++ ('\x7d' :: rest))))))) := by
        rw [skipWs_ws_append pre _ hpre, hpp]
        exact skipWs_of_head '\"' _ (by decide)
      have hk := parseStrChars_escChars k.toList (':' :: ' ' ::
        (printVal ind v ++ (printMoreO ind (q2 :: ps') ++
          ('\n' :: (List.replicate indc ' ' ++ ('\x7d' :: rest))))))
      have hcol : skipWs (':' :: ' ' :: (printVal ind v ++
          (printMoreO ind (q2 :: ps') ++
          ('\n' :: (List.replicate indc ' ' ++ ('\x7d' :: rest)))))) =
          ':' :: (' ' :: (printVal ind v ++ (printMoreO ind (q2 :: ps') ++
            ('\n' :: (List.replicate indc ' ' ++ ('\x7d' :: rest)))))) :=
        skipWs_of_head ':' _ (by decide)
      have hv : parseVal ((f + needPairs (q2 :: ps')) + needFuel v)
          (' ' :: (printVal ind v ++ (printMoreO ind (q2 :: ps') ++
            ('\n' :: (List.replicate indc ' ' ++ ('\x7d' :: rest)))))) =
          some (v, printMoreO ind (q2 :: ps') ++
            ('\n' :: (List.replicate indc ' ' ++ ('\x7d' :: rest)))) := by
        rw [show (' ' :: (printVal ind v ++ (printMoreO ind (q2 :: ps') ++
            ('\n' :: (List.replicate indc ' ' ++ ('\x7d' :: rest)))))) =
          [' '] ++ (printVal ind v ++ (printMoreO ind (q2 :: ps') ++
            ('\n' :: (List.replicate indc ' ' ++ ('\x7d' :: rest))))) from rfl]
        rw [parseVal_drop_ws _ [' '] _ (by intro c hc; simp at hc; subst hc; decide)]
        exact hmem (k, v) (Or.inl rfl) ind (f + needPairs (q2 :: ps')) _
          (noFollow_printMoreO_tail ind indc (q2 :: ps') rest)
      have hmO : printMoreO ind (q2 :: ps') ++
          ('\n' :: (List.replicate indc ' ' ++ ('\x7d' :: rest))) =
          ',' :: (('\n' :: List.replicate ind ' ') ++ (printPair ind q2 ++
            (printMoreO ind ps' ++
              ('\n' :: (List.replicate indc ' ' ++ ('\x7d' :: rest)))))) := by
        simp only [printMoreO, List.cons_append, List.append_assoc]
      have hd : skipWs (printMoreO ind (q2 :: ps') ++
          ('\n' :: (List.replicate indc ' ' ++ ('\x7d' :: rest)))) =
          ',' :: (('\n' :: List.replicate ind ' ') ++ (printPair ind q2 ++
            (printMoreO ind ps' ++
              ('\n' :: (List.replicate indc ' ' ++ ('\x7d' :: rest)))))) := by
        rw [hmO]
        exact skipWs_of_head ',' _ (by decide)
      rw [show f + needPairs ((k, v) :: q2 :: ps') =
        ((f + needPairs (q2 :: ps')) + needFuel v) + 1 by
          simp only [needPairs]; omega]
      rw [parseObjRest_step _ _ acc _ k.toList _ v _ _ ',' _ hs hk hcol hv hd]
      rw [if_pos rfl]
      rw [show String.mk k.toList = k from rfl]
      rw [pyInsert_fresh acc k v (hfresh (k, v) (Or.inl rfl))]
      have hdist2 : keysDistinct (q2 :: ps') = true := by
        unfold keysDistinct at hdist
        exact (Bool.and_eq_true _ _ |>.mp hdist).2
      have hknot : hasKeyB (q2 :: ps') k = false := by
        unfold keysDistinct at hdist
        have := (Bool.and_eq_true _ _ |>.mp hdist).1
        simpa using this
      have hfresh2 : ∀ w, (w = q2 ∨ w ∈ ps') →
          hasKeyB (acc ++ [(k, v)]) w.1 = false := by
        intro w hw
        rw [hasKeyB_append_single]
        have h1 : hasKeyB acc w.1 = false := hfresh w (by
          rcases hw with rfl | hw2
          · exact Or.inr (List.mem_cons_self w ps')
          · exact Or.inr (List.mem_cons_of_mem q2 hw2))
        have h2 : w.1 ≠ k := by
          have hmem2 : w ∈ q2 :: ps' := by
            rcases hw with rfl | hw2
            · exact List.mem_cons_self w ps'
            · exact List.mem_cons_of_mem q2 hw2
          exact hasKeyB_false_forall (q2 :: ps') k hknot w hmem2
        rw [h1]
        simp only [Bool.false_or, decide_eq_false_iff_not]
        exact fun he => h2 he.symm
      have hrec := ih q2 (fun w hw => hmem w (by
          rcases hw with rfl | hw2
          · exact Or.inr (List.mem_cons_self w ps')
          · exact Or.inr (List.mem_cons_of_mem q2 hw2)))
        hdist2 (acc ++ [(k, v)]) hfresh2 ind indc (f + needFuel v) rest
        ('\n' :: List.replicate ind ' ') (ws_pad ind)
      rw [show (f + needPairs (q2 :: ps')) + needFuel v =
        (f + needFuel v) + needPairs (q2 :: ps') by omega]
      rw [hrec]
      simp

theorem intChars_head (n : Int) :
    ∃ c t, intChars n = c :: t ∧ (isDigitC c = true ∨ c = '-') ∧
      isWs c = false := by
  by_cases hn : n < 0
  · exact ⟨'-', natChars n.natAbs, by simp [intChars, hn], Or.inr rfl, by decide⟩
  · cases hA : natChars n.toNat with
    | nil => exact absurd hA (natCharsAux_ne_nil _ n.toNat (by omega))
    | cons c t =>
        have hmem : c ∈ natCharsAux (n.toNat + 1) n.toNat := by
          rw [show natCharsAux (n.toNat + 1) n.toNat = c :: t from hA]
          exact List.mem_cons_self c t
        have hdig : isDigitC c = true :=
          natCharsAux_digits (n.toNat + 1) n.toNat (by omega) c hmem
        exact ⟨c, t, by simp only [intChars, if_neg hn]; exact hA,
          Or.inl hdig, digitC_isWs_false c hdig⟩

/-- Main round-trip lemma: the printed form of any well-formed value parses
back to the value, at any indentation, with any extra fuel, leaving a
non-number-extending tail untouched. -/
theorem parse_print (v : Json) : WfJson v → ∀ (ind f : Nat) (rest : List Char),
    noFollow rest = true →
    parseVal (f + needFuel v) (printVal ind v ++ rest) = some (v, rest) := by
  induction v using jsonInd with
  | h1 =>
      intro _ ind f rest _
      rw [show f + needFuel Json.null = f + 1 by simp [needFuel]]
      have hs : skipWs (printVal ind Json.null ++ rest) =
          'n' :: 'u' :: 'l' :: 'l' :: rest := by
        simp only [printVal, List.cons_append, List.nil_append]
        exact skipWs_of_head 'n' _ (by decide)
      exact parseVal_null_step f _ rest hs
  | h2 b =>
      intro _ ind f rest _
      cases b with
      | true =>
          rw [show f + needFuel (Json.bool true) = f + 1 by simp [needFuel]]
          have hs : skipWs (printVal ind (Json.bool true) ++ rest) =
              't' :: 'r' :: 'u' :: 'e' :: rest := by
            simp only [printVal, List.cons_append, List.nil_append]
            exact skipWs_of_head 't' _ (by decide)
          exact parseVal_true_step f _ rest hs
      | false =>
          rw [show f + needFuel (Json.bool false) = f + 1 by simp [needFuel]]
          have hs : skipWs (printVal ind (Json.bool false) ++ rest) =
              'f' :: 'a' :: 'l' :: 's' :: 'e' :: rest := by
            simp only [printVal, List.cons_append, List.nil_append]
            exact skipWs_of_head 'f' _ (by decide)
          exact parseVal_false_step f _ rest hs
  | h3 n =>
      intro _ ind f rest hrest
      obtain ⟨c, t, hct, hdm, hws⟩ := intChars_head n
      rw [show f + needFuel (Json.num n) = f + 1 by simp [needFuel]]
      have hs : skipWs (printVal ind (Json.num n) ++ rest) =
          c :: (t ++ rest) := by
        simp only [printVal]
        rw [hct, List.cons_append]
        exact skipWs_of_head c _ hws
      rw [parseVal_num_step f _ c (t ++ rest) hs hdm]
      rw [show c :: (t ++ rest) = intChars n ++ rest by rw [hct]; rfl]
      exact parseNum_intChars n rest hrest
  | h4 s =>
      intro _ ind f rest _
      rw [show f + needFuel (Json.str s) = f + 1 by simp [needFuel]]
      have hs : skipWs (printVal ind (Json.str s) ++ rest) =
          '\"' :: (escChars s.toList ++ ('\"' :: rest)) := by
        simp only [printVal, List.cons_append, List.append_assoc,
          List.singleton_append]
        exact skipWs_of_head '\"' _ (by decide)
      rw [parseVal_str_step f _ _ hs]
      rw [parseStrChars_escChars s.toList rest]
      rfl
  | h5 xs hIH =>
      intro hwf ind f rest hrest
      cases xs with
      | nil =>
          rw [show f + needFuel (Json.arr []) = f + 1 by simp [needFuel]]
          have hs : skipWs (printVal ind (Json.arr []) ++ rest) =
              '[' :: (']' :: rest) := by
            simp only [printVal, List.cons_append, List.nil_append]
            exact skipWs_of_head '[' _ (by decide)
          have hs2 : skipWs (']' :: rest) = ']' :: rest :=
            skipWs_of_head ']' _ (by decide)
          exact parseVal_arr_empty_step f _ (']' :: rest) rest hs hs2
      | cons x xs2 =>
          have hwfm : ∀ y ∈ x :: xs2, WfJson y := by
            cases hwf with | arr _ h => exact h
          have hmem : ∀ y, (y = x ∨ y ∈ xs2) → ∀ ind2 f2 rest2,
              noFollow rest2 = true →
              parseVal (f2 + needFuel y) (printVal ind2 y ++ rest2) =
                some (y, rest2) := by
            intro y hy
            have hym : y ∈ x :: xs2 := by
              rcases hy with rfl | h2
              · exact List.mem_cons_self y xs2
              · exact List.mem_cons_of_mem x h2
            exact hIH y hym (hwfm y hym)
          rw [show f + needFuel (Json.arr (x :: xs2)) =
            (f + needItems (x :: xs2)) + 1 by simp [needFuel]; omega]
          have hcs : printVal ind (Json.arr (x :: xs2)) ++ rest =
              '[' :: (('\n' :: List.replicate (ind + 2) ' ') ++
                (printVal (ind + 2) x ++ (printMoreA (ind + 2) xs2 ++
                  ('\n' :: (List.replicate ind ' ' ++ (']' :: rest)))))) := by
            simp only [printVal, List.cons_append, List.append_assoc,
              List.singleton_append, List.nil_append]
          have hs : skipWs (printVal ind (Json.arr (x :: xs2)) ++ rest) =
              '[' :: (('\n' :: List.replicate (ind + 2) ' ') ++
                (printVal (ind + 2) x ++ (printMoreA (ind + 2) xs2 ++
                  ('\n' :: (List.replicate ind ' ' ++ (']' :: rest)))))) := by
            rw [hcs]
            exact skipWs_of_head '[' _ (by decide)
          obtain ⟨c, t, hct, hcws, hcne, _⟩ := printVal_head (ind + 2) x
          have hs2 : skipWs (('\n' :: List.replicate (ind + 2) ' ') ++
              (printVal (ind + 2) x ++ (printMoreA (ind + 2) xs2 ++
                ('\n' :: (List.replicate ind ' ' ++ (']' :: rest)))))) =
              c :: (t ++ (printMoreA (ind + 2) xs2 ++
                ('\n' :: (List.replicate ind ' ' ++ (']' :: rest))))) := by
            rw [skipWs_ws_append _ _ (ws_pad (ind + 2))]
            rw [hct, List.cons_append]
            exact skipWs_of_head c _ hcws
          rw [parseVal_arr_step (f + needItems (x :: xs2)) _ _ c _ hs hs2 hcne]
          rw [parseArrRest_loop xs2 x hmem (ind + 2) ind f rest
            ('\n' :: List.replicate (ind + 2) ' ') (ws_pad (ind + 2))]
          rfl
  | h6 kvs hIH =>
      intro hwf ind f rest hrest
      cases kvs with
      | nil =>
          rw [show f + needFuel (Json.obj []) = f + 1 by simp [needFuel]]
          have hs : skipWs (printVal ind (Json.obj []) ++ rest) =
              '\x7b' :: ('\x7d' :: rest) := by
            simp only [printVal, List.cons_append, List.nil_append]
            exact skipWs_of_head '\x7b' _ (by decide)
          have hs2 : skipWs ('\x7d' :: rest) = '\x7d' :: rest :=
            skipWs_of_head '\x7d' _ (by decide)
          exact parseVal_obj_empty_step f _ ('\x7d' :: rest) rest hs hs2
      | cons q ps =>
          obtain ⟨k, v⟩ := q
          have hdist : keysDistinct ((k, v) :: ps) = true := by
            cases hwf with | obj _ hd _ => exact hd
          have hwfm : ∀ p ∈ (k, v) :: ps, WfJson p.2 := by
            cases hwf with | obj _ _ h => exact h
          have hmem : ∀ w, (w = (k, v) ∨ w ∈ ps) → ∀ ind2 f2 rest2,
              noFollow rest2 = true →
              parseVal (f2 + needFuel w.2) (printVal ind2 w.2 ++ rest2) =
                some (w.2, rest2) := by
            intro w hw
            have hwm : w ∈ (k, v) :: ps := by
              rcases hw with rfl | h2
              · exact List.mem_cons_self (k, v) ps
              · exact List.mem_cons_of_mem (k, v) h2
            exact hIH w hwm (hwfm w hwm)
          rw [show f + needFuel (Json.obj ((k, v) :: ps)) =
            (f + needPairs ((k, v) :: ps)) + 1 by simp [needFuel]; omega]
          have hpr : printPair (ind + 2) (k, v) = '\"' :: (escChars k.toList ++
              '\"' :: ':' :: ' ' :: printVal (ind + 2) v) := by
            simp only [printPair]
          have hcs : printVal ind (Json.obj ((k, v) :: ps)) ++ rest =
              '\x7b' :: (('\n' :: List.replicate (ind + 2) ' ') ++
                (printPair (ind + 2) (k, v) ++ (printMoreO (ind + 2) ps ++
                  ('\n' :: (List.replicate ind ' ' ++ ('\x7d' :: rest)))))) := by
            simp only [printVal, List.cons_append, List.append_assoc,
              List.singleton_append, List.nil_append]
          have hs : skipWs (printVal ind (Json.obj ((k, v) :: ps)) ++ rest) =
              '\x7b' :: (('\n' :: List.replicate (ind + 2) ' ') ++
                (printPair (ind + 2) (k, v) ++ (printMoreO (ind + 2) ps ++
                  ('\n' :: (List.replicate ind ' ' ++ ('\x7d' :: rest)))))) := by
            rw [hcs]
            exact skipWs_of_head '\x7b' _ (by decide)
          have hs2 : skipWs (('\n' :: List.replicate (ind + 2) ' ') ++
              (printPair (ind + 2) (k, v) ++ (printMoreO (ind + 2) ps ++
                ('\n' :: (List.replicate ind ' ' ++ ('\x7d' :: rest)))))) =
              '\"' :: ((escChars k.toList ++ '\"' :: ':' :: ' ' ::
                printVal (ind + 2) v) ++ (printMoreO (ind + 2) ps ++
                  ('\n' :: (List.replicate ind ' ' ++ ('\x7d' :: rest))))) := by
            rw [skipWs_ws_append _ _ (ws_pad (ind + 2))]
            rw [hpr, List.cons_append]
            exact skipWs_of_head '\"' _ (by decide)
          rw [parseVal_obj_step (f + needPairs ((k, v) :: ps)) _ _ '\"' _ hs hs2
            (by decide)]
          rw [parseObjRest_loop ps (k, v) hmem hdist [] (fun w _ => rfl)
            (ind + 2) ind f rest ('\n' :: List.replicate (ind + 2) ' ')
            (ws_pad (ind + 2))]
          rfl

theorem needItems_le (l : List Json)
    (h : ∀ y ∈ l, ∀ ind, needFuel y ≤ 2 * (printVal ind y).length) :
    ∀ ind, needItems l ≤ 2 * (printMoreA ind l).length := by
  induction l with
  | nil => intro ind; simp [needItems, printMoreA]
  | cons y ys ih =>
      intro ind
      have h1 := h y (List.mem_cons_self y ys) ind
      have h2 := ih (fun z hz => h z (List.mem_cons_of_mem y hz)) ind
      simp only [needItems, printMoreA, List.length_cons, List.length_append,
        List.length_replicate]
      omega

theorem needPairs_le (l : PyDict)
    (h : ∀ p ∈ l, ∀ ind, needFuel p.2 ≤ 2 * (printVal ind p.2).length) :
    ∀ ind, needPairs l ≤ 2 * (printMoreO ind l).length := by
  induction l with
  | nil => intro ind; simp [needPairs, printMoreO]
  | cons q qs ih =>
      intro ind
      obtain ⟨k, v⟩ := q
      have h1 : needFuel v ≤ 2 * (printVal ind v).length :=
        h (k, v) (List.mem_cons_self (k, v) qs) ind
      have h2 := ih (fun z hz => h z (List.mem_cons_of_mem (k, v) hz)) ind
      simp only [needPairs, printMoreO, printPair, List.length_cons,
        List.length_append, List.length_replicate]
      omega

theorem needFuel_le (v : Json) :
    ∀ ind, needFuel v ≤ 2 * (printVal ind v).length := by
  induction v using jsonInd with
  | h1 =>
      intro ind
      simp only [needFuel, printVal, List.length_cons, List.length_nil]
      omega
  | h2 b =>
      intro ind
      cases b <;>
        simp only [needFuel, printVal, List.length_cons, List.length_nil] <;>
        omega
  | h3 n =>
      intro ind
      obtain ⟨c, t, hct, _, _⟩ := intChars_head n
      simp only [needFuel, printVal, hct, List.length_cons]
      omega
  | h4 s =>
      intro ind
      simp only [needFuel, printVal, List.length_cons, List.length_append,
        List.length_nil]
      omega
  | h5 xs hIH =>
      intro ind
      cases xs with
      | nil =>
          simp only [needFuel, printVal, List.length_cons, List.length_nil]
          omega
      | cons x xs2 =>
          have h1 := hIH x (List.mem_cons_self x xs2) (ind + 2)
          have h2 := needItems_le xs2
            (fun z hz => hIH z (List.mem_cons_of_mem x hz)) (ind + 2)
          simp only [needFuel, needItems, printVal, List.length_cons,
            List.length_append, List.length_replicate, List.length_nil]
          omega
  | h6 kvs hIH =>
      intro ind
      cases kvs with
      | nil =>
          simp only [needFuel, printVal, List.length_cons, List.length_nil]
          omega
      | cons q ps =>
          obtain ⟨k, v⟩ := q
          have h1 : needFuel v ≤ 2 * (printVal (ind + 2) v).length :=
            hIH (k, v) (List.mem_cons_self (k, v) ps) (ind + 2)
          have h2 := needPairs_le ps
            (fun z hz => hIH z (List.mem_cons_of_mem (k, v) hz)) (ind + 2)
          simp only [needFuel, needPairs, printVal, printPair, List.length_cons,
            List.length_append, List.length_replicate, List.length_nil]
          omega

/-- `json.loads` inverts `json.dumps(·, indent=2, ensure_ascii=False)` on any
well-formed value. -/
theorem loads_dumps (v : Json) (h : WfJson v) : loads (dumps v) = some v := by
  have hb := needFuel_le v 0
  have hp := parse_print v h 0 (2 * (printVal 0 v).length + 2 - needFuel v) []
    rfl
  rw [List.append_nil] at hp
  rw [show (2 * (printVal 0 v).length + 2 - needFuel v) + needFuel v =
    2 * (printVal 0 v).length + 2 by omega] at hp
  show loadsChars (dumps v).toList = some v
  rw [show (dumps v).toList = printVal 0 v from rfl]
  unfold loadsChars
  rw [hp]
  rfl

mutual

/-- Decidable check of `WfJson`: every object in the value has pairwise
distinct keys. -/
def wfB : Json → Bool
  | Json.null => true
  | Json.bool _ => true
  | Json.num _ => true
  | Json.str _ => true
  | Json.arr xs => wfBList xs
  | Json.obj kvs => keysDistinct kvs && wfBPairs kvs

/-- `wfB` over the items of an array. -/
def wfBList : List Json → Bool
  | [] => true
  | x :: xs => wfB x && wfBList xs

/-- `wfB` over the values of an object. -/
def wfBPairs : PyDict → Bool
  | [] => true
  | p :: ps => wfB p.2 && wfBPairs ps

end

theorem wfBList_mem (xs : List Json) (h : wfBList xs = true) :
    ∀ x ∈ xs, wfB x = true := by
  induction xs with
  | nil => intro x hx; cases hx
  | cons y ys ih =>
      intro x hx
      rw [show wfBList (y :: ys) = (wfB y && wfBList ys) from rfl] at h
      rcases List.mem_cons.mp hx with rfl | hx2
      · exact (Bool.and_eq_true _ _ |>.mp h).1
      · exact ih (Bool.and_eq_true _ _ |>.mp h).2 x hx2

theorem wfBPairs_mem (ps : PyDict) (h : wfBPairs ps = true) :
    ∀ p ∈ ps, wfB p.2 = true := by
  induction ps with
  | nil => intro p hp; cases hp
  | cons q qs ih =>
      intro p hp
      rw [show wfBPairs (q :: qs) = (wfB q.2 && wfBPairs qs) from rfl] at h
      rcases List.mem_cons.mp hp with rfl | hp2
      · exact (Bool.and_eq_true _ _ |>.mp h).1
      · exact ih (Bool.and_eq_true _ _ |>.mp h).2 p hp2

theorem wfB_sound (v : Json) : wfB v = true → WfJson v := by
  induction v using jsonInd with
  | h1 => intro _; exact WfJson.null
  | h2 b => intro _; exact WfJson.bool b
  | h3 n => intro _; exact WfJson.num n
  | h4 s => intro _; exact WfJson.str s
  | h5 xs hIH =>
      intro h
      rw [show wfB (Json.arr xs) = wfBList xs from rfl] at h
      exact WfJson.arr xs (fun x hx => hIH x hx (wfBList_mem xs h x hx))
  | h6 kvs hIH =>
      intro h
      rw [show wfB (Json.obj kvs) = (keysDistinct kvs && wfBPairs kvs)
        from rfl] at h
      obtain ⟨hd, hp⟩ := Bool.and_eq_true _ _ |>.mp h
      exact WfJson.obj kvs hd (fun p hpm => hIH p hpm (wfBPairs_mem kvs hp p hpm))

/-- C9: serializing a result sequence to the checkpoint format
(`_save_progress`, src/scrape.py lines 123-129: `json.dump(results, f,
indent=2, ensure_ascii=False)`) and parsing that JSON text back yields
exactly the serialized sequence: the parse result is the JSON array whose
elements are the original records in their original order, so the round trip
is the identity on the sequence.  The hypothesis states that each record is a
well-formed Python value: every object in it, at any depth, has pairwise
distinct keys — automatically true of every Python dict. -/
theorem C9_checkpoint_round_trip (results : List PyDict)
    (h : ∀ r ∈ results, WfJson (Json.obj r)) :
    loads (saveContent results) = some (Json.arr (results.map Json.obj)) := by
  unfold saveContent
  apply loads_dumps
  exact WfJson.arr _ (fun x hx => by
    obtain ⟨r, hr, rfl⟩ := List.mem_map.mp hx
    exact h r hr)

theorem C9_checkpoint_round_trip_witness :
    loads (saveContent [fallbackNoJson "Acme" "no data",
      [("keywords", Json.arr [Json.str "ai", Json.num (-12)]),
       ("ok", Json.bool true), ("x", Json.null)]]) =
      some (Json.arr ([fallbackNoJson "Acme" "no data",
        [("keywords", Json.arr [Json.str "ai", Json.num (-12)]),
         ("ok", Json.bool true), ("x", Json.null)]].map Json.obj)) :=
  C9_checkpoint_round_trip _ (by
    intro r hr
    rcases List.mem_cons.mp hr with rfl | hr2
    · exact wfB_sound _ (by decide)
    · rcases List.mem_cons.mp hr2 with rfl | hr3
      · exact wfB_sound _ (by decide)
      · cases hr3)
